import Mathlib

/-!
Verification of the SSE stream-processor subsystem of the repository
(`src/providers/streamProcessor.ts`), containing two classes:
`StreamProcessor` and `StreamProcessorOptimized`.

The embedding works over `List Char` in place of JavaScript strings, `Int`
for the (possibly negative) brace/bracket counters, and `Nat` for the
monotone counters.  JavaScript arrays of records are `List` values.
External collaborators (the axios transport, the vscode webview, the
`FileWriter` durable sink, timers) appear only through explicit parameters:
the webview is a flag plus a per-attempt success oracle, and timer firings
are boolean parameters (`intervalElapsed`) at the call sites where the
source consults wall-clock time.
-/

namespace StreamSpec

/-! ### Characters, whitespace and `String.trim` / `String.startsWith` -/

/-- Whitespace as consulted by `String.prototype.trim` (the code only ever
trims around JSON payloads and SSE lines, where these four cover it). -/
def isWS (c : Char) : Bool :=
  c = ' ' || c = '\t' || c = '\n' || c = '\r'

/-- Model of `s.trim()`: drop whitespace from both ends. -/
def trimL (l : List Char) : List Char :=
  ((l.dropWhile isWS).reverse.dropWhile isWS).reverse

/-- Model of `s.startsWith(p)`. -/
def startsWithL (p l : List Char) : Bool :=
  l.take p.length = p

/-! ### The character scanner of `processJsonChunk`

Both classes walk each chunk character by character, tracking
string/escape state and brace/bracket depth (lines 477-508 and
1434-1465 of `streamProcessor.ts`; the two loops are identical). -/

/-- The mutable scan variables `braceCount`, `bracketCount`, `inString`,
`escapeNext` of `processJsonChunk`. -/
structure ScanSt where
  brace : Int
  bracket : Int
  inString : Bool
  escapeNext : Bool
deriving DecidableEq, Repr

def cleanSt : ScanSt := ⟨0, 0, false, false⟩

/-- One iteration of the character loop of `processJsonChunk`. -/
def scanStep (s : ScanSt) (c : Char) : ScanSt :=
  if s.escapeNext then { s with escapeNext := false }
  else if c = '\\' then { s with escapeNext := true }
  else if c = '"' then { s with inString := !s.inString }
  else if s.inString then s
  else if c = '{' then { s with brace := s.brace + 1 }
  else if c = '}' then { s with brace := s.brace - 1 }
  else if c = '[' then { s with bracket := s.bracket + 1 }
  else if c = ']' then { s with bracket := s.bracket - 1 }
  else s

/-- The whole character loop over a chunk. -/
def scanStr (s : ScanSt) (l : List Char) : ScanSt :=
  l.foldl scanStep s

theorem scanStr_nil (s : ScanSt) : scanStr s [] = s := rfl

theorem scanStr_append (s : ScanSt) (a b : List Char) :
    scanStr s (a ++ b) = scanStr (scanStr s a) b :=
  List.foldl_append ..

theorem scanStr_cons (s : ScanSt) (c : Char) (l : List Char) :
    scanStr s (c :: l) = scanStr (scanStep s c) l := rfl

end StreamSpec

namespace StreamSpec

/-! ### JSON values

`SSEData` values flowing through the processor are JSON values.  JavaScript
has one universe of values, in which the result of `JSON.parse`, the
elements of an array result, and the arrays built by
`tryParseMultipleJson` all live; `Json` models that universe (numbers are
kept as their digit strings, which is enough because every claim compares
parse results with parse results).  `JsonArr`/`JsonObj` are the list
spines, kept mutual so that structural induction over values is
available. -/

mutual

inductive Json where
  | null : Json
  | bool : Bool → Json
  | num : List Nat → Json
  | str : List Char → Json
  | arr : JsonArr → Json
  | obj : JsonObj → Json

inductive JsonArr where
  | nil : JsonArr
  | cons : Json → JsonArr → JsonArr

inductive JsonObj where
  | nil : JsonObj
  | cons : List Char → Json → JsonObj → JsonObj

end

/-- The `typeof parsed === 'string'` test of `processJsonChunk`
(line 1479). -/
def Json.isStr : Json → Bool
  | .str _ => true
  | _ => false

/-- The `Array.isArray(...)` test used on parse results and queue items. -/
def Json.isArr : Json → Bool
  | .arr _ => true
  | _ => false

/-- Content of a string value (what `tryParseMultipleJson` receives when
`processJsonChunk` finds that the parsed result is a string). -/
def Json.strChars : Json → List Char
  | .str cs => cs
  | _ => []

def listToArr : List Json → JsonArr
  | [] => .nil
  | v :: tl => .cons v (listToArr tl)

def arrToList : JsonArr → List Json
  | .nil => []
  | .cons v tl => v :: arrToList tl

/-! ### Serialization (`JSON.stringify`-shaped text)

Used to quantify over "valid JSON texts" in the fragmentation and
concatenation claims: the texts considered are the compact serializations
of `Json` values. -/

/-- How a character is written inside a JSON string literal. -/
def escChar (c : Char) : List Char :=
  if c = '"' || c = '\\' then ['\\', c] else [c]

def escStr (cs : List Char) : List Char :=
  (cs.map escChar).flatten

/-- Digit characters for serialized numbers. -/
def digitCh : Nat → Char
  | 0 => '0' | 1 => '1' | 2 => '2' | 3 => '3' | 4 => '4'
  | 5 => '5' | 6 => '6' | 7 => '7' | 8 => '8' | _ => '9'

/-- A string literal: `"` content `"`. -/
def strLit (cs : List Char) : List Char :=
  '"' :: (escStr cs ++ ['"'])

mutual

def serialize : Json → List Char
  | .null => ['n', 'u'] ++ ['l', 'l']
  | .bool true => ['t', 'r'] ++ ['u', 'e']
  | .bool false => ['f', 'a', 'l'] ++ ['s', 'e']
  | .num ds => ds.map digitCh
  | .str cs => strLit cs
  | .arr xs => '[' :: (serializeArr xs ++ [']'])
  | .obj ms => '{' :: (serializeObj ms ++ ['}'])

def serializeArr : JsonArr → List Char
  | .nil => []
  | .cons v .nil => serialize v
  | .cons v (.cons w tl) => serialize v ++ ',' :: serializeArr (.cons w tl)

def serializeObj : JsonObj → List Char
  | .nil => []
  | .cons k v .nil => strLit k ++ ':' :: serialize v
  | .cons k v (.cons k2 w tl) =>
      strLit k ++ ':' :: serialize v ++ ',' :: serializeObj (.cons k2 w tl)

end

/-! ### A model of `JSON.parse`

`StreamProcessorOptimized` parses with `options.parseData`, defaulting to
`JSON.parse` (line 1419).  The theorems below are parametric in the parse
function; `jsonParse` is the executable model of the default used to
instantiate them on concrete inputs.  It is a recursive-descent reader of
the serializations above (a sub-language of full JSON — integers only,
string escapes for quote/backslash/slash) that, like `JSON.parse`,
rejects trailing non-whitespace content. -/

def digitVal (c : Char) : Nat := c.toNat - '0'.toNat

/-- Reads a string literal body after the opening quote, returning content
and remainder. -/
def readStr : List Char → Option (List Char × List Char)
  | [] => none
  | '"' :: r => some ([], r)
  | '\\' :: c :: r =>
      if c = '"' || c = '\\' || c = '/' then
        (readStr r).map (fun p => (c :: p.1, p.2))
      else none
  | '\\' :: [] => none
  | c :: r => (readStr r).map (fun p => (c :: p.1, p.2))

mutual

def parseVal : Nat → List Char → Option (Json × List Char)
  | 0, _ => none
  | Nat.succ fuel, l =>
    match l.dropWhile isWS with
    | 'n' :: 'u' :: 'l' :: 'l' :: r => some (.null, r)
    | 't' :: 'r' :: 'u' :: 'e' :: r => some (.bool true, r)
    | 'f' :: 'a' :: 'l' :: 's' :: 'e' :: r => some (.bool false, r)
    | '"' :: r => (readStr r).map (fun p => (.str p.1, p.2))
    | '[' :: r =>
      (match r.dropWhile isWS with
       | ']' :: rest => some (.arr .nil, rest)
       | r' => (parseElems fuel r').map (fun p => (.arr p.1, p.2)))
    | '{' :: r =>
      (match r.dropWhile isWS with
       | '}' :: rest => some (.obj .nil, rest)
       | r' => (parseMembers fuel r').map (fun p => (.obj p.1, p.2)))
    | c :: r =>
      if c.isDigit then
        some (.num ((c :: r).takeWhile Char.isDigit |>.map digitVal),
              (c :: r).dropWhile Char.isDigit)
      else none
    | [] => none

def parseElems : Nat → List Char → Option (JsonArr × List Char)
  | 0, _ => none
  | Nat.succ fuel, l => do
    let (v, r) ← parseVal fuel l
    match r.dropWhile isWS with
    | ',' :: r2 => (parseElems fuel r2).map (fun p => (.cons v p.1, p.2))
    | ']' :: r2 => some (.cons v .nil, r2)
    | _ => none

def parseMembers : Nat → List Char → Option (JsonObj × List Char)
  | 0, _ => none
  | Nat.succ fuel, l =>
    match l.dropWhile isWS with
    | '"' :: r => do
      let (k, r1) ← readStr r
      match r1.dropWhile isWS with
      | ':' :: r2 => do
        let (v, r3) ← parseVal fuel r2
        match r3.dropWhile isWS with
        | ',' :: r4 => (parseMembers fuel r4).map (fun p => (.cons k v p.1, p.2))
        | '}' :: r4 => some (.cons k v .nil, r4)
        | _ => none
      | _ => none
    | _ => none

end

/-- Model of `JSON.parse(text)`: parse one value, reject leftovers. -/
def jsonParse (l : List Char) : Option Json :=
  match parseVal (l.length + 1) l with
  | some (v, r) => if r.dropWhile isWS = [] then some v else none
  | none => none

end StreamSpec

namespace StreamSpec

/-! ### Scanner algebra

The bracket counters evolve additively over any text whose string/escape
state starts out clean; these lemmas let the scan of a serialized value be
composed from the scans of its pieces. -/

theorem scanStep_shift (b k : Int) (s : ScanSt) (c : Char) :
    scanStep ⟨s.brace + b, s.bracket + k, s.inString, s.escapeNext⟩ c =
      ⟨(scanStep s c).brace + b, (scanStep s c).bracket + k,
       (scanStep s c).inString, (scanStep s c).escapeNext⟩ := by
  rcases s with ⟨sb, sk, si, se⟩
  unfold scanStep
  dsimp only
  split_ifs <;> simp [ScanSt.mk.injEq] <;> ring

theorem scanStr_shift (l : List Char) (b k : Int) (s : ScanSt) :
    scanStr ⟨s.brace + b, s.bracket + k, s.inString, s.escapeNext⟩ l =
      ⟨(scanStr s l).brace + b, (scanStr s l).bracket + k,
       (scanStr s l).inString, (scanStr s l).escapeNext⟩ := by
  induction l generalizing s with
  | nil => rfl
  | cons c tl ih =>
      rw [scanStr_cons, scanStr_cons, scanStep_shift]
      exact ih (scanStep s c)

/-- Scanning a text balances: the counters return to their start values and
the string/escape state is clean again. -/
def Balanced (l : List Char) : Prop := scanStr cleanSt l = cleanSt

/-- Every prefix keeps both counters non-negative. -/
def NonNeg (l : List Char) : Prop :=
  ∀ p q, l = p ++ q →
    0 ≤ (scanStr cleanSt p).brace ∧ 0 ≤ (scanStr cleanSt p).bracket

def Safe (l : List Char) : Prop := Balanced l ∧ NonNeg l

/-- Every prefix leaves the scanner in the clean state (holds for texts
with no brackets, quotes or backslashes). -/
def CleanPfx (l : List Char) : Prop :=
  ∀ p q, l = p ++ q → scanStr cleanSt p = cleanSt

theorem CleanPfx.safe {l : List Char} (h : CleanPfx l) : Safe l := by
  refine ⟨h l [] (by simp), fun p q hpq => ?_⟩
  rw [h p q hpq]
  exact ⟨le_refl 0, le_refl 0⟩

/-- Characters that the scanner ignores outside strings. -/
def neutralCh (c : Char) : Bool :=
  !(c = '\\' || c = '"' || c = '{' || c = '}' || c = '[' || c = ']')

theorem scanStep_neutral {s : ScanSt} {c : Char} (hse : s.escapeNext = false)
    (hc : neutralCh c = true) : scanStep s c = s := by
  unfold neutralCh at hc
  simp only [Bool.not_eq_true', Bool.or_eq_false_iff, decide_eq_false_iff_not] at hc
  obtain ⟨⟨⟨⟨⟨h1, h2⟩, h3⟩, h4⟩, h5⟩, h6⟩ := hc
  unfold scanStep
  split_ifs <;> simp_all

theorem cleanPfx_of_neutral (l : List Char)
    (h : ∀ c ∈ l, neutralCh c = true) : CleanPfx l := by
  intro p q hpq
  subst hpq
  revert h
  induction p with
  | nil => intro _; rfl
  | cons c p' ih =>
      intro h
      have hc : neutralCh c = true := h c (by simp)
      rw [scanStr_cons, scanStep_neutral rfl hc]
      exact ih (fun d hd => h d (by simp at hd ⊢; tauto))

theorem safe_append {a b : List Char} (ha : Safe a) (hb : Safe b) :
    Safe (a ++ b) := by
  constructor
  · unfold Balanced
    rw [scanStr_append, ha.1, hb.1]
  · intro p q hpq
    rcases List.append_eq_append_iff.mp hpq.symm with ⟨m, hm1, hm2⟩ | ⟨m, hm1, hm2⟩
    · -- a = p ++ m : the prefix stays within a
      exact ha.2 p m hm1
    · -- p = a ++ m, b = m ++ q : the prefix runs into b
      subst hm1
      rw [scanStr_append, ha.1]
      exact hb.2 m q hm2

/-! ### Scanning string literals -/

/-- Scanner state in the middle of a string literal. -/
def inStr : ScanSt := ⟨0, 0, true, false⟩

/-- Counters stay put and the scanner stays in-string. -/
def StrMid (s : ScanSt) : Prop :=
  s.brace = 0 ∧ s.bracket = 0 ∧ s.inString = true

theorem scanStr_escChar (c : Char) : scanStr inStr (escChar c) = inStr := by
  unfold escChar
  split_ifs with h
  · rfl
  · simp only [Bool.or_eq_true, decide_eq_true_eq] at h
    push_neg at h
    show scanStr (scanStep inStr c) [] = inStr
    rw [scanStr_nil]
    unfold scanStep inStr
    split_ifs <;> simp_all

theorem escStr_pfx (cs : List Char) : ∀ p q, escStr cs = p ++ q →
    StrMid (scanStr inStr p) ∧ (q = [] → scanStr inStr p = inStr) := by
  induction cs with
  | nil =>
      intro p q hpq
      unfold escStr at hpq
      simp only [List.map_nil, List.flatten_nil] at hpq
      obtain ⟨hp, _⟩ := List.append_eq_nil.mp hpq.symm
      subst hp
      exact ⟨⟨rfl, rfl, rfl⟩, fun _ => rfl⟩
  | cons c tl ih =>
      intro p q hpq
      have hsplit : escChar c ++ escStr tl = p ++ q := by
        simpa [escStr] using hpq
      rcases List.append_eq_append_iff.mp hsplit with ⟨m, hm1, hm2⟩ | ⟨m, hm1, hm2⟩
      · -- p = escChar c ++ m : the prefix runs past the escaped character
        subst hm1
        rw [scanStr_append, scanStr_escChar]
        exact ih m q hm2
      · -- escChar c = p ++ m : the prefix stops inside the escaped character
        unfold escChar at hm1
        split_ifs at hm1 with h
        · -- two-character escape sequence
          cases p with
          | nil => exact ⟨⟨rfl, rfl, rfl⟩, fun _ => rfl⟩
          | cons a p2 =>
              injection hm1 with h1 h2
              subst h1
              cases p2 with
              | nil =>
                  have hm : m = [c] := by simpa using h2.symm
                  refine ⟨⟨rfl, rfl, rfl⟩, fun hq0 => ?_⟩
                  subst hq0
                  rw [hm] at hm2
                  exact absurd hm2 (by simp)
              | cons b p3 =>
                  injection h2 with h3 h4
                  subst h3
                  obtain ⟨hp3, hm0⟩ := List.append_eq_nil.mp h4.symm
                  subst hp3 hm0
                  have hfull : scanStr inStr ['\\', c] = inStr := rfl
                  rw [hfull]
                  exact ⟨⟨rfl, rfl, rfl⟩, fun _ => rfl⟩
        · -- single plain character
          simp only [Bool.or_eq_true, decide_eq_true_eq] at h
          push_neg at h
          cases p with
          | nil => exact ⟨⟨rfl, rfl, rfl⟩, fun _ => rfl⟩
          | cons a p2 =>
              injection hm1 with h1 h2
              subst h1
              obtain ⟨hp2, hm0⟩ := List.append_eq_nil.mp h2.symm
              subst hp2 hm0
              have hstep : scanStep inStr c = inStr := by
                simp [scanStep, inStr, h.1, h.2]
              rw [show scanStr inStr [c] = scanStep inStr c from rfl, hstep]
              exact ⟨⟨rfl, rfl, rfl⟩, fun _ => rfl⟩

theorem strLit_scan (cs : List Char) : scanStr cleanSt (strLit cs) = cleanSt := by
  unfold strLit
  rw [scanStr_cons]
  have h0 : scanStep cleanSt '"' = inStr := rfl
  rw [h0, scanStr_append, (escStr_pfx cs (escStr cs) [] (by simp)).2 rfl]
  rfl

theorem strLit_pfx (cs : List Char) : ∀ p q, strLit cs = p ++ q →
    (scanStr cleanSt p).brace = 0 ∧ (scanStr cleanSt p).bracket = 0 ∧
    (p ≠ [] → q ≠ [] → (scanStr cleanSt p).inString = true) := by
  intro p q hpq
  cases p with
  | nil => exact ⟨rfl, rfl, by simp⟩
  | cons a p' =>
      unfold strLit at hpq
      injection hpq with h1 h2
      subst h1
      rw [scanStr_cons, show scanStep cleanSt '"' = inStr from rfl]
      rcases List.append_eq_append_iff.mp h2 with ⟨m, hm1, hm2⟩ | ⟨m, hm1, hm2⟩
      · -- p' = escStr cs ++ m with m a prefix of the closing quote
        subst hm1
        rw [scanStr_append, (escStr_pfx cs (escStr cs) [] (by simp)).2 rfl]
        cases m with
        | nil =>
            have hi : scanStr inStr [] = inStr := rfl
            rw [hi]
            exact ⟨rfl, rfl, fun _ _ => rfl⟩
        | cons b m' =>
            injection hm2 with h3 h4
            subst h3
            obtain ⟨hm', hq0⟩ := List.append_eq_nil.mp h4.symm
            subst hm' hq0
            exact ⟨rfl, rfl, fun _ hq => absurd rfl hq⟩
      · -- p' stops inside the escaped content
        obtain ⟨⟨hb, hk, hi⟩, _⟩ := escStr_pfx cs p' m hm1
        exact ⟨hb, hk, fun _ _ => hi⟩

theorem strLit_safe (cs : List Char) : Safe (strLit cs) := by
  refine ⟨strLit_scan cs, fun p q hpq => ?_⟩
  obtain ⟨hb, hk, _⟩ := strLit_pfx cs p q hpq
  rw [hb, hk]
  exact ⟨le_refl 0, le_refl 0⟩

/-! ### Serialized values are scanner-safe -/

theorem digitCh_neutral (d : Nat) : neutralCh (digitCh d) = true := by
  match d with
  | 0 | 1 | 2 | 3 | 4 | 5 | 6 | 7 | 8 => decide
  | n + 9 => exact rfl

theorem safe_nil : Safe ([] : List Char) :=
  (cleanPfx_of_neutral [] (by simp)).safe

theorem scanStr_shiftZero (l : List Char) (b k : Int) (i e : Bool) :
    scanStr ⟨b, k, i, e⟩ l =
      ⟨(scanStr ⟨0, 0, i, e⟩ l).brace + b, (scanStr ⟨0, 0, i, e⟩ l).bracket + k,
       (scanStr ⟨0, 0, i, e⟩ l).inString, (scanStr ⟨0, 0, i, e⟩ l).escapeNext⟩ := by
  have h := scanStr_shift l b k ⟨0, 0, i, e⟩
  dsimp only at h
  rw [zero_add, zero_add] at h
  exact h

theorem scanStr_openBrace (body : List Char) :
    scanStr ⟨1, 0, false, false⟩ body =
      ⟨(scanStr cleanSt body).brace + 1, (scanStr cleanSt body).bracket,
       (scanStr cleanSt body).inString, (scanStr cleanSt body).escapeNext⟩ := by
  have h := scanStr_shiftZero body 1 0 false false
  rw [add_zero] at h
  exact h

theorem scanStr_openBracket (body : List Char) :
    scanStr ⟨0, 1, false, false⟩ body =
      ⟨(scanStr cleanSt body).brace, (scanStr cleanSt body).bracket + 1,
       (scanStr cleanSt body).inString, (scanStr cleanSt body).escapeNext⟩ := by
  have h := scanStr_shiftZero body 0 1 false false
  rw [add_zero] at h
  exact h

/-- Any proper, non-empty prefix of a brace-wrapped safe body leaves total
depth at least one (so the completion test of `processJsonChunk` fails). -/
theorem brace_wrap_pfx (body : List Char) (hb : Safe body) :
    ∀ p q, '{' :: (body ++ ['}']) = p ++ q → p ≠ [] → q ≠ [] →
      1 ≤ (scanStr cleanSt p).brace + (scanStr cleanSt p).bracket ∧
      0 ≤ (scanStr cleanSt p).brace ∧ 0 ≤ (scanStr cleanSt p).bracket := by
  intro p q hpq hp hq
  cases p with
  | nil => exact absurd rfl hp
  | cons a p' =>
      injection hpq with h1 h2
      subst h1
      rw [scanStr_cons, show scanStep cleanSt '{' = ⟨1, 0, false, false⟩ from rfl]
      rcases List.append_eq_append_iff.mp h2 with ⟨m, hm1, hm2⟩ | ⟨m, hm1, hm2⟩
      · -- p' = body ++ m with m a prefix of the closing brace
        subst hm1
        cases m with
        | nil =>
            rw [List.append_nil, scanStr_openBrace, hb.1]
            refine ⟨by simp [cleanSt], by simp [cleanSt], by simp [cleanSt]⟩
        | cons b m' =>
            injection hm2 with h3 h4
            obtain ⟨hm', hq0⟩ := List.append_eq_nil.mp h4.symm
            exact absurd hq0 hq
      · -- body = p' ++ m : the prefix stays inside the body
        rw [scanStr_openBrace]
        obtain ⟨hb0, hk0⟩ := hb.2 p' m hm1
        dsimp only
        refine ⟨by omega, by omega, hk0⟩

theorem bracket_wrap_pfx (body : List Char) (hb : Safe body) :
    ∀ p q, '[' :: (body ++ [']']) = p ++ q → p ≠ [] → q ≠ [] →
      1 ≤ (scanStr cleanSt p).brace + (scanStr cleanSt p).bracket ∧
      0 ≤ (scanStr cleanSt p).brace ∧ 0 ≤ (scanStr cleanSt p).bracket := by
  intro p q hpq hp hq
  cases p with
  | nil => exact absurd rfl hp
  | cons a p' =>
      injection hpq with h1 h2
      subst h1
      rw [scanStr_cons, show scanStep cleanSt '[' = ⟨0, 1, false, false⟩ from rfl]
      rcases List.append_eq_append_iff.mp h2 with ⟨m, hm1, hm2⟩ | ⟨m, hm1, hm2⟩
      · subst hm1
        cases m with
        | nil =>
            rw [List.append_nil, scanStr_openBracket, hb.1]
            refine ⟨by simp [cleanSt], by simp [cleanSt], by simp [cleanSt]⟩
        | cons b m' =>
            injection hm2 with h3 h4
            obtain ⟨hm', hq0⟩ := List.append_eq_nil.mp h4.symm
            exact absurd hq0 hq
      · rw [scanStr_openBracket]
        obtain ⟨hb0, hk0⟩ := hb.2 p' m hm1
        dsimp only
        refine ⟨by omega, hb0, by omega⟩

theorem brace_wrap_balanced (body : List Char) (hb : Balanced body) :
    Balanced ('{' :: (body ++ ['}'])) := by
  unfold Balanced
  rw [scanStr_cons, show scanStep cleanSt '{' = ⟨1, 0, false, false⟩ from rfl,
      scanStr_append, scanStr_openBrace, hb]
  rfl

theorem bracket_wrap_balanced (body : List Char) (hb : Balanced body) :
    Balanced ('[' :: (body ++ [']'])) := by
  unfold Balanced
  rw [scanStr_cons, show scanStep cleanSt '[' = ⟨0, 1, false, false⟩ from rfl,
      scanStr_append, scanStr_openBracket, hb]
  rfl

theorem brace_wrap_safe (body : List Char) (hb : Safe body) :
    Safe ('{' :: (body ++ ['}'])) := by
  refine ⟨brace_wrap_balanced body hb.1, fun p q hpq => ?_⟩
  by_cases hp : p = []
  · subst hp; exact ⟨le_refl 0, le_refl 0⟩
  by_cases hq : q = []
  · subst hq
    rw [List.append_nil] at hpq
    rw [← hpq, brace_wrap_balanced body hb.1]
    exact ⟨le_refl 0, le_refl 0⟩
  · obtain ⟨_, h2, h3⟩ := brace_wrap_pfx body hb p q hpq hp hq
    exact ⟨h2, h3⟩

theorem bracket_wrap_safe (body : List Char) (hb : Safe body) :
    Safe ('[' :: (body ++ [']'])) := by
  refine ⟨bracket_wrap_balanced body hb.1, fun p q hpq => ?_⟩
  by_cases hp : p = []
  · subst hp; exact ⟨le_refl 0, le_refl 0⟩
  by_cases hq : q = []
  · subst hq
    rw [List.append_nil] at hpq
    rw [← hpq, bracket_wrap_balanced body hb.1]
    exact ⟨le_refl 0, le_refl 0⟩
  · obtain ⟨_, h2, h3⟩ := bracket_wrap_pfx body hb p q hpq hp hq
    exact ⟨h2, h3⟩

theorem colon_safe : Safe [':'] := (cleanPfx_of_neutral [':'] (by decide)).safe

theorem comma_safe : Safe [','] := (cleanPfx_of_neutral [','] (by decide)).safe

mutual

theorem serialize_safe (v : Json) : Safe (serialize v) := by
  cases v with
  | null => exact (cleanPfx_of_neutral _ (by decide)).safe
  | bool b =>
      cases b with
      | true => exact (cleanPfx_of_neutral _ (by decide)).safe
      | false => exact (cleanPfx_of_neutral _ (by decide)).safe
  | num ds =>
      refine (cleanPfx_of_neutral _ ?_).safe
      intro c hc
      obtain ⟨d, _, hd⟩ := List.mem_map.mp hc
      rw [← hd]
      exact digitCh_neutral d
  | str cs => exact strLit_safe cs
  | arr xs => exact bracket_wrap_safe _ (serializeArr_safe xs)
  | obj ms => exact brace_wrap_safe _ (serializeObj_safe ms)

theorem serializeArr_safe (xs : JsonArr) : Safe (serializeArr xs) := by
  cases xs with
  | nil => exact safe_nil
  | cons v tl =>
      cases tl with
      | nil => exact serialize_safe v
      | cons w tl' =>
          exact safe_append (serialize_safe v)
            (safe_append comma_safe (serializeArr_safe (.cons w tl')))

theorem serializeObj_safe (ms : JsonObj) : Safe (serializeObj ms) := by
  cases ms with
  | nil => exact safe_nil
  | cons k v tl =>
      cases tl with
      | nil =>
          exact safe_append (strLit_safe k)
            (safe_append colon_safe (serialize_safe v))
      | cons k2 w tl' =>
          exact safe_append
            (safe_append (strLit_safe k) (safe_append colon_safe (serialize_safe v)))
            (safe_append comma_safe (serializeObj_safe (.cons k2 w tl')))

end

/-! ### Container values and trimming facts -/

/-- Values whose serialization is brace/bracket delimited (objects and
arrays); only these start the incremental parse, since `processJsonChunk`
waits for a leading brace or bracket. -/
def isContainerB : Json → Bool
  | .arr _ => true
  | .obj _ => true
  | _ => false

theorem container_pfx_pos (v : Json) (hv : isContainerB v = true) :
    ∀ p q, serialize v = p ++ q → p ≠ [] → q ≠ [] →
      1 ≤ (scanStr cleanSt p).brace + (scanStr cleanSt p).bracket ∧
      0 ≤ (scanStr cleanSt p).brace ∧ 0 ≤ (scanStr cleanSt p).bracket := by
  cases v with
  | arr xs => exact bracket_wrap_pfx _ (serializeArr_safe xs)
  | obj ms => exact brace_wrap_pfx _ (serializeObj_safe ms)
  | null => exact absurd hv (by decide)
  | bool b => exact absurd hv (by simp [isContainerB])
  | num ds => exact absurd hv (by simp [isContainerB])
  | str cs => exact absurd hv (by simp [isContainerB])

theorem serialize_balanced (v : Json) : scanStr cleanSt (serialize v) = cleanSt :=
  (serialize_safe v).1

/-- Trimming keeps a non-whitespace head in place. -/
theorem trimL_cons_head (c : Char) (hc : isWS c = false) (rest : List Char) :
    ∃ m, trimL (c :: rest) = c :: m := by
  have h1 : (c :: rest).dropWhile isWS = c :: rest := by
    rw [List.dropWhile_cons, hc]
    simp
  by_cases h : (rest.reverse.dropWhile isWS).isEmpty
  · refine ⟨[], ?_⟩
    unfold trimL
    rw [h1, List.reverse_cons, List.dropWhile_append, if_pos h, List.dropWhile_cons, hc]
    simp
  · refine ⟨(rest.reverse.dropWhile isWS).reverse, ?_⟩
    unfold trimL
    rw [h1, List.reverse_cons, List.dropWhile_append, if_neg h]
    simp

/-- Trimming a delimiter-wrapped text is the identity. -/
theorem trimL_wrap (a : Char) (mid : List Char) (b : Char)
    (ha : isWS a = false) (hb : isWS b = false) :
    trimL (a :: (mid ++ [b])) = a :: (mid ++ [b]) := by
  unfold trimL
  rw [List.dropWhile_cons, ha]
  simp only [Bool.false_eq_true, if_false]
  have h1 : (a :: (mid ++ [b])).reverse = b :: (mid.reverse ++ [a]) := by
    simp
  rw [h1, List.dropWhile_cons, hb]
  simp only [Bool.false_eq_true, if_false]
  rw [← h1, List.reverse_reverse]

end StreamSpec

namespace StreamSpec

/-! ### `processJsonChunk` and `tryParseMultipleJson`
(StreamProcessorOptimized, lines 1398-1529 and 1534-1591) -/

/-- The per-session JSON reassembly state threaded through
`processJsonChunk` (`jsonBuffer`, `isParsingJson`, `braceCount`,
`bracketCount`, `inString`, `escapeNext`). -/
structure ParseState where
  buffer : List Char
  isParsingJson : Bool
  braceCount : Int
  bracketCount : Int
  inString : Bool
  escapeNext : Bool
deriving DecidableEq, Repr

/-- The state at session start, and after every successful parse reset. -/
def initPS : ParseState := ⟨[], false, 0, 0, false, false⟩

/-- `buffer.trim().startsWith('{') || buffer.trim().startsWith('[')`. -/
def startsBr (l : List Char) : Bool :=
  startsWithL ['{'] l || startsWithL ['['] l

/-- `multipleJson.length === 1 ? multipleJson[0] : multipleJson`
(a JavaScript array of parsed values is itself an array value). -/
def oneOrArr (rs : List Json) : Json :=
  match rs with
  | [r] => r
  | _ => .arr (listToArr rs)

/-- Loop state of `tryParseMultipleJson`: `depth`, `inString`,
`escapeNext`, `startPos` (represented by the collected span, `none` when
`startPos === -1`), and the `results` accumulator. -/
structure MJState where
  depth : Int
  inString : Bool
  escapeNext : Bool
  span : Option (List Char)
  results : List Json

/-- One iteration of the `tryParseMultipleJson` character loop.  A span is
the substring from `startPos` to the current index, so every character
consumed while a span is active is appended to it. -/
def tpmStep (parseData : List Char → Option Json) (s : MJState) (c : Char) : MJState :=
  let withC := s.span.map (fun l => l ++ [c])
  if s.escapeNext then { s with escapeNext := false, span := withC }
  else if c = '\\' then { s with escapeNext := true, span := withC }
  else if c = '"' then { s with inString := !s.inString, span := withC }
  else if s.inString then { s with span := withC }
  else if c = '{' || c = '[' then
    (match s.span with
     | none => { s with span := some [c], depth := s.depth + 1 }
     | some l => { s with span := some (l ++ [c]), depth := s.depth + 1 })
  else if c = '}' || c = ']' then
    (match s.span with
     | some l =>
        if s.depth - 1 = 0 then
          { s with
              depth := s.depth - 1
              span := none
              results := s.results ++ (parseData (l ++ [c])).toList }
        else { s with depth := s.depth - 1, span := some (l ++ [c]) }
     | none => { s with depth := s.depth - 1 })
  else { s with span := withC }

def mjInit : MJState := ⟨0, false, false, none, []⟩

/-- `tryParseMultipleJson(jsonString, parseData)`: scan for balanced
top-level spans, parse each independently, keep the successes. -/
def tryParseMultipleJson (parseData : List Char → Option Json)
    (l : List Char) : List Json :=
  (l.foldl (tpmStep parseData) mjInit).results

/-- `processJsonChunk(chunk, currentState)` of `StreamProcessorOptimized`:
append the chunk to the carry buffer, scan its characters, and when the
parse looks complete attempt `parseData` on the trimmed buffer, falling
back to `tryParseMultipleJson` on failure. -/
def processJsonChunk (parseData : List Char → Option Json)
    (chunk : List Char) (st : ParseState) : ParseState × Option Json :=
  let buffer := st.buffer ++ chunk
  let isP1 := st.isParsingJson || startsBr (trimL buffer)
  let isP := if !isP1 && startsBr (trimL chunk) then true else isP1
  let sc := scanStr ⟨st.braceCount, st.bracketCount, st.inString, st.escapeNext⟩ chunk
  if isP = true ∧ sc.brace = 0 ∧ sc.bracket = 0 ∧ sc.inString = false then
    let tb := trimL buffer
    if tb = [] then
      (⟨buffer, isP, sc.brace, sc.bracket, sc.inString, sc.escapeNext⟩, none)
    else
      match parseData tb with
      | some parsed =>
          let complete : Json :=
            if parsed.isStr then
              let multi := tryParseMultipleJson parseData parsed.strChars
              if 0 < multi.length then oneOrArr multi else parsed
            else parsed
          (initPS, some complete)
      | none =>
          let multi := tryParseMultipleJson parseData tb
          if 0 < multi.length then (initPS, some (oneOrArr multi))
          else (⟨buffer, isP, sc.brace, sc.bracket, sc.inString, sc.escapeNext⟩, none)
  else
    (⟨buffer, isP, sc.brace, sc.bracket, sc.inString, sc.escapeNext⟩, none)

/-- Feeding a list of chunks in order, collecting every emitted value. -/
def feedChunks (parseData : List Char → Option Json)
    (chunks : List (List Char)) (st : ParseState) : ParseState × List Json :=
  chunks.foldl
    (fun acc ch =>
      let r := processJsonChunk parseData ch acc.1
      (r.1, acc.2 ++ r.2.toList))
    (st, [])

end StreamSpec

namespace StreamSpec

/-! ### Feeding a fragmented container text through `processJsonChunk` -/

theorem container_shape (v : Json) (hv : isContainerB v = true) :
    (∃ mid, serialize v = '{' :: (mid ++ ['}'])) ∨
    (∃ mid, serialize v = '[' :: (mid ++ [']'])) := by
  cases v with
  | obj ms => exact Or.inl ⟨serializeObj ms, rfl⟩
  | arr xs => exact Or.inr ⟨serializeArr xs, rfl⟩
  | null => exact absurd hv (by decide)
  | bool b => exact absurd hv (by simp [isContainerB])
  | num ds => exact absurd hv (by simp [isContainerB])
  | str cs => exact absurd hv (by simp [isContainerB])

theorem serialize_container_ne_nil (v : Json) (hv : isContainerB v = true) :
    serialize v ≠ [] := by
  rcases container_shape v hv with ⟨mid, h⟩ | ⟨mid, h⟩ <;> rw [h] <;> simp

theorem trimL_serialize (v : Json) (hv : isContainerB v = true) :
    trimL (serialize v) = serialize v := by
  rcases container_shape v hv with ⟨mid, h⟩ | ⟨mid, h⟩ <;> rw [h]
  · exact trimL_wrap '{' mid '}' (by decide) (by decide)
  · exact trimL_wrap '[' mid ']' (by decide) (by decide)

/-- A non-empty prefix of a container text starts with the same opening
bracket after trimming, so `isParsingJson` is switched on. -/
theorem startsBr_trimL_pfx (v : Json) (hv : isContainerB v = true)
    (p q : List Char) (h : serialize v = p ++ q) (hp : p ≠ []) :
    startsBr (trimL p) = true := by
  cases p with
  | nil => exact absurd rfl hp
  | cons x p' =>
      have hx : x = '{' ∨ x = '[' := by
        rcases container_shape v hv with ⟨mid, hs⟩ | ⟨mid, hs⟩ <;>
          rw [hs] at h <;> [exact Or.inl (List.head_eq_of_cons_eq h.symm);
            exact Or.inr (List.head_eq_of_cons_eq h.symm)]
      rcases hx with hx | hx <;> subst hx
      · obtain ⟨m, hm⟩ := trimL_cons_head '{' (by decide) p'
        rw [hm]
        simp [startsBr, startsWithL]
      · obtain ⟨m, hm⟩ := trimL_cons_head '[' (by decide) p'
        rw [hm]
        simp [startsBr, startsWithL]

/-- The parse state after consuming a proper prefix `p` of the text:
carry buffer `p`, `isParsingJson` as soon as `p` is non-empty, and the
scanner state of `p`. -/
def midPS (p : List Char) : ParseState :=
  ⟨p, !p.isEmpty, (scanStr cleanSt p).brace, (scanStr cleanSt p).bracket,
   (scanStr cleanSt p).inString, (scanStr cleanSt p).escapeNext⟩

theorem midPS_nil : midPS [] = initPS := rfl

theorem midPS_scan (p c : List Char) :
    scanStr ⟨(midPS p).braceCount, (midPS p).bracketCount,
             (midPS p).inString, (midPS p).escapeNext⟩ c =
      scanStr cleanSt (p ++ c) := by
  rw [scanStr_append]
  rfl

/-- Feeding one more chunk that still does not finish the container text:
nothing is emitted and the state advances to the longer prefix. -/
theorem pjc_mid_step (pd : List Char → Option Json) (v : Json)
    (hv : isContainerB v = true) (p c q : List Char)
    (hsplit : serialize v = (p ++ c) ++ q) (hq : q ≠ []) :
    processJsonChunk pd c (midPS p) = (midPS (p ++ c), none) := by
  by_cases hpc : p ++ c = []
  · obtain ⟨hp0, hc0⟩ := List.append_eq_nil.mp hpc
    subst hp0 hc0
    rfl
  · have hbr : startsBr (trimL (p ++ c)) = true :=
      startsBr_trimL_pfx v hv (p ++ c) q hsplit hpc
    have hpos := container_pfx_pos v hv (p ++ c) q hsplit hpc hq
    unfold processJsonChunk
    rw [midPS_scan]
    have hbuf : (midPS p).buffer = p := rfl
    rw [hbuf]
    have hgate : ¬((if !((midPS p).isParsingJson || startsBr (trimL (p ++ c))) &&
          startsBr (trimL c) then true
        else (midPS p).isParsingJson || startsBr (trimL (p ++ c))) = true ∧
        (scanStr cleanSt (p ++ c)).brace = 0 ∧
        (scanStr cleanSt (p ++ c)).bracket = 0 ∧
        (scanStr cleanSt (p ++ c)).inString = false) := by
      rintro ⟨-, hb, hk, -⟩
      rw [hb, hk] at hpos
      omega
    rw [if_neg hgate]
    have hisP : (if !((midPS p).isParsingJson || startsBr (trimL (p ++ c))) &&
          startsBr (trimL c) then true
        else (midPS p).isParsingJson || startsBr (trimL (p ++ c))) = !(p ++ c).isEmpty := by
      rw [hbr]
      simp [List.isEmpty_eq_false_iff_exists_mem]
      simpa using hpc
    rw [hisP]
    rfl

/-- Feeding the chunk that completes the container text: the parse
succeeds, the value is emitted, and the state resets. -/
theorem pjc_final_step (pd : List Char → Option Json) (v : Json)
    (hv : isContainerB v = true) (p c : List Char)
    (hsplit : serialize v = p ++ c) (w : Json)
    (hw : pd (serialize v) = some w) (hws : w.isStr = false) :
    processJsonChunk pd c (midPS p) = (initPS, some w) := by
  have hne : p ++ c ≠ [] := by
    rw [← hsplit]
    exact serialize_container_ne_nil v hv
  have hbr : startsBr (trimL (p ++ c)) = true := by
    refine startsBr_trimL_pfx v hv (p ++ c) [] (by rw [← hsplit]; simp) hne
  unfold processJsonChunk
  rw [midPS_scan]
  have hbuf : (midPS p).buffer = p := rfl
  rw [hbuf]
  have hscan : scanStr cleanSt (p ++ c) = cleanSt := by
    rw [← hsplit]
    exact serialize_balanced v
  have hgate : ((if !((midPS p).isParsingJson || startsBr (trimL (p ++ c))) &&
        startsBr (trimL c) then true
      else (midPS p).isParsingJson || startsBr (trimL (p ++ c))) = true ∧
      (scanStr cleanSt (p ++ c)).brace = 0 ∧
      (scanStr cleanSt (p ++ c)).bracket = 0 ∧
      (scanStr cleanSt (p ++ c)).inString = false) := by
    refine ⟨?_, by rw [hscan]; rfl, by rw [hscan]; rfl, by rw [hscan]; rfl⟩
    rw [hbr]
    simp
  rw [if_pos hgate]
  have htb : trimL (p ++ c) = serialize v := by
    rw [← hsplit]
    exact trimL_serialize v hv
  rw [htb]
  rw [if_neg (serialize_container_ne_nil v hv), hw]
  simp only [hws, Bool.false_eq_true, if_false]

end StreamSpec

namespace StreamSpec

theorem feedChunks_nil (pd : List Char → Option Json) (st : ParseState) :
    feedChunks pd [] st = (st, []) := rfl

theorem feedChunks_acc (pd : List Char → Option Json) (tl : List (List Char)) :
    ∀ (st : ParseState) (outs : List Json),
      tl.foldl
        (fun acc ch =>
          let r := processJsonChunk pd ch acc.1
          (r.1, acc.2 ++ r.2.toList)) (st, outs) =
      ((feedChunks pd tl st).1, outs ++ (feedChunks pd tl st).2) := by
  induction tl with
  | nil => intro st outs; simp [feedChunks]
  | cons c tl ih =>
      intro st outs
      show tl.foldl _ ((processJsonChunk pd c st).1,
        outs ++ (processJsonChunk pd c st).2.toList) = _
      rw [ih]
      have h2 : feedChunks pd (c :: tl) st =
          tl.foldl
            (fun acc ch =>
              let r := processJsonChunk pd ch acc.1
              (r.1, acc.2 ++ r.2.toList))
            ((processJsonChunk pd c st).1, [] ++ (processJsonChunk pd c st).2.toList) := rfl
      rw [h2, ih]
      simp

theorem feedChunks_cons (pd : List Char → Option Json) (c : List Char)
    (tl : List (List Char)) (st : ParseState) :
    feedChunks pd (c :: tl) st =
      ((feedChunks pd tl (processJsonChunk pd c st).1).1,
       (processJsonChunk pd c st).2.toList ++
         (feedChunks pd tl (processJsonChunk pd c st).1).2) := by
  show List.foldl _ ((processJsonChunk pd c st).1,
    [] ++ (processJsonChunk pd c st).2.toList) tl = _
  rw [feedChunks_acc]
  simp

theorem pjc_nil_init (pd : List Char → Option Json) :
    processJsonChunk pd [] initPS = (initPS, none) := rfl

theorem feedChunks_empty (pd : List Char → Option Json) :
    ∀ tl : List (List Char), tl.flatten = [] →
      feedChunks pd tl initPS = (initPS, []) := by
  intro tl
  induction tl with
  | nil => intro _; rfl
  | cons c tl ih =>
      intro h
      rw [List.flatten_cons] at h
      obtain ⟨hc, htl⟩ := List.append_eq_nil.mp h
      subst hc
      rw [feedChunks_cons, pjc_nil_init]
      rw [ih htl]
      rfl

theorem feedChunks_mid (pd : List Char → Option Json) (v : Json)
    (hv : isContainerB v = true) :
    ∀ (chunks : List (List Char)) (p q : List Char),
      serialize v = (p ++ chunks.flatten) ++ q → q ≠ [] →
      feedChunks pd chunks (midPS p) = (midPS (p ++ chunks.flatten), []) := by
  intro chunks
  induction chunks with
  | nil =>
      intro p q h hq
      rw [feedChunks_nil, List.flatten_nil, List.append_nil]
  | cons c tl ih =>
      intro p q h hq
      have hsp : serialize v = ((p ++ c) ++ tl.flatten) ++ q := by
        rw [h, List.flatten_cons]
        simp [List.append_assoc]
      have hstep := pjc_mid_step pd v hv p c (tl.flatten ++ q)
        (by rw [hsp]; simp [List.append_assoc])
        (by simp [hq])
      rw [feedChunks_cons, hstep]
      have hrec := ih (p ++ c) q hsp hq
      rw [hrec]
      simp [List.flatten_cons, List.append_assoc]

theorem feedChunks_emit (pd : List Char → Option Json) (v : Json)
    (hv : isContainerB v = true) (w : Json)
    (hw : pd (serialize v) = some w) (hws : w.isStr = false) :
    ∀ (chunks : List (List Char)) (p : List Char),
      serialize v = p ++ chunks.flatten → p ≠ serialize v →
      feedChunks pd chunks (midPS p) = (initPS, [w]) := by
  intro chunks
  induction chunks with
  | nil =>
      intro p h hp
      rw [List.flatten_nil, List.append_nil] at h
      exact absurd h.symm hp
  | cons c tl ih =>
      intro p h hp
      rw [List.flatten_cons] at h
      by_cases hdone : p ++ c = serialize v
      · have hstep := pjc_final_step pd v hv p c hdone.symm w hw hws
        rw [feedChunks_cons, hstep]
        have htl : tl.flatten = [] := by
          have h2 : p ++ c = p ++ (c ++ tl.flatten) := by rw [hdone, h]
          have h3 : c = c ++ tl.flatten := List.append_cancel_left h2
          have h4 : c ++ [] = c ++ tl.flatten := by simpa using h3
          exact (List.append_cancel_left h4).symm
        rw [feedChunks_empty pd tl htl]
        rfl
      · have hq : tl.flatten ≠ [] := by
          intro h0
          rw [h0, List.append_nil] at h
          exact hdone h.symm
        have hstep := pjc_mid_step pd v hv p c tl.flatten
          (by rw [h]; simp [List.append_assoc]) hq
        rw [feedChunks_cons, hstep]
        have hrec := ih (p ++ c)
          (by rw [h]; simp [List.append_assoc]) hdone
        rw [hrec]
        rfl

end StreamSpec

namespace StreamSpec

/-- Claim C3, amended: for every JSON object or array value, feeding the
chunks of any partition of its serialized text sequentially to
`processJsonChunk`, starting from the empty parse state, emits exactly one
value — identical to parsing the whole text at once — while every call
that has not yet seen the final character emits nothing and retains the
consumed content in the carry buffer.  (Amendment: the original claim
ranged over every valid JSON text; texts of scalar JSON values — numbers,
strings, booleans, null — never set `isParsingJson` and are never emitted,
see the counterexample.) -/
theorem c3_fragmentation_amended (pd : List Char → Option Json) (v : Json)
    (hv : isContainerB v = true) (w : Json)
    (hw : pd (serialize v) = some w) (hws : w.isStr = false)
    (chunks : List (List Char)) (hj : chunks.flatten = serialize v) :
    feedChunks pd chunks initPS = (initPS, [w]) ∧
    ∀ c1 c2, chunks = c1 ++ c2 → c1.flatten ≠ serialize v →
      (feedChunks pd c1 initPS).2 = [] ∧
      (feedChunks pd c1 initPS).1.buffer = c1.flatten := by
  constructor
  · rw [← midPS_nil]
    exact feedChunks_emit pd v hv w hw hws chunks []
      (by rw [List.nil_append, hj])
      (fun h0 => serialize_container_ne_nil v hv h0.symm)
  · intro c1 c2 hc hne
    have hflat : chunks.flatten = c1.flatten ++ c2.flatten := by
      rw [hc, List.flatten_append]
    have hq2 : c2.flatten ≠ [] := by
      intro h0
      rw [hflat, h0, List.append_nil] at hj
      exact hne hj
    have hmid := feedChunks_mid pd v hv c1 [] c2.flatten
      (by rw [List.nil_append, ← hflat, hj]) hq2
    rw [← midPS_nil, hmid]
    exact ⟨rfl, by simp [midPS]⟩

/-- Claim C3 as frozen is false for scalar JSON texts: `1` is a valid JSON
text (its parse succeeds), yet feeding it whole — the one-chunk partition —
emits no value at all, because `processJsonChunk` only starts a value at a
leading brace or bracket. -/
theorem c3_scalar_counterexample :
    jsonParse ['1'] = some (Json.num [1]) ∧
    (feedChunks jsonParse [['1']] initPS).2 = [] ∧
    (feedChunks jsonParse [['1']] initPS).2.length ≠ 1 := by
  refine ⟨rfl, rfl, ?_⟩
  have h : (feedChunks jsonParse [['1']] initPS).2 = [] := rfl
  rw [h]
  decide

/-- Witness for the amended C3: the single-character partition of
`\x7b"a":1\x7d` emits exactly the object, with a reset state. -/
theorem c3_fragmentation_witness :
    feedChunks jsonParse [['{'], ['"'], ['a'], ['"'], [':'], ['1'], ['}']] initPS =
      (initPS, [Json.obj (.cons ['a'] (.num [1]) .nil)]) :=
  (c3_fragmentation_amended jsonParse (Json.obj (.cons ['a'] (.num [1]) .nil)) rfl
    (Json.obj (.cons ['a'] (.num [1]) .nil)) rfl rfl
    [['{'], ['"'], ['a'], ['"'], [':'], ['1'], ['}']] rfl).1

end StreamSpec

namespace StreamSpec

/-! ### `tryParseMultipleJson` on concatenated container texts -/

/-- One `tryParseMultipleJson` step with an active span that is not closed
by this character: the single depth counter tracks the sum of the two
scanner counters, and the character joins the span. -/
theorem tpmStep_active (pd : List Char → Option Json) (g : ScanSt)
    (l0 : List Char) (rs : List Json) (c : Char)
    (h1 : 1 ≤ (scanStep g c).brace + (scanStep g c).bracket) :
    tpmStep pd ⟨g.brace + g.bracket, g.inString, g.escapeNext, some l0, rs⟩ c =
      ⟨(scanStep g c).brace + (scanStep g c).bracket, (scanStep g c).inString,
       (scanStep g c).escapeNext, some (l0 ++ [c]), rs⟩ := by
  rcases g with ⟨gb, gk, gi, ge⟩
  by_cases hge : ge = true
  · simp [tpmStep, scanStep, hge]
  by_cases hbs : c = '\\'
  · simp [tpmStep, scanStep, hge, hbs]
  by_cases hq : c = '"'
  · simp [tpmStep, scanStep, hge, hbs, hq]
  by_cases hgi : gi = true
  · simp [tpmStep, scanStep, hge, hbs, hq, hgi]
  by_cases hob : c = '{'
  · simp [tpmStep, scanStep, hge, hbs, hq, hgi, hob]
    omega
  by_cases hobk : c = '['
  · simp [tpmStep, scanStep, hge, hbs, hq, hgi, hob, hobk]
    omega
  by_cases hcb : c = '}'
  · have hne : ¬(gb + gk - 1 = 0) := by
      simp [scanStep, hge, hbs, hq, hgi, hob, hobk, hcb] at h1
      omega
    simp [tpmStep, scanStep, hge, hbs, hq, hgi, hob, hobk, hcb, hne]
    omega
  by_cases hcbk : c = ']'
  · have hne : ¬(gb + gk - 1 = 0) := by
      simp [scanStep, hge, hbs, hq, hgi, hob, hobk, hcb, hcbk] at h1
      omega
    simp [tpmStep, scanStep, hge, hbs, hq, hgi, hob, hobk, hcb, hcbk, hne]
    omega
  · simp [tpmStep, scanStep, hge, hbs, hq, hgi, hob, hobk, hcb, hcbk]

/-- Scanning a stretch of text during which the depth never returns to
zero: the whole stretch joins the active span and no result is emitted. -/
theorem tpm_inside (pd : List Char → Option Json) :
    ∀ (s : List Char) (g : ScanSt) (l0 : List Char) (rs : List Json),
      (∀ p q, s = p ++ q → 1 ≤ (scanStr g p).brace + (scanStr g p).bracket) →
      List.foldl (tpmStep pd) ⟨g.brace + g.bracket, g.inString, g.escapeNext, some l0, rs⟩ s =
        ⟨(scanStr g s).brace + (scanStr g s).bracket, (scanStr g s).inString,
         (scanStr g s).escapeNext, some (l0 ++ s), rs⟩ := by
  intro s
  induction s with
  | nil =>
      intro g l0 rs _
      simp [scanStr_nil]
  | cons c s' ih =>
      intro g l0 rs h
      have h1 : 1 ≤ (scanStep g c).brace + (scanStep g c).bracket := by
        have := h [c] s' rfl
        rwa [show scanStr g [c] = scanStep g c from rfl] at this
      rw [List.foldl_cons, tpmStep_active pd g l0 rs c h1]
      have h2 : ∀ p q, s' = p ++ q →
          1 ≤ (scanStr (scanStep g c) p).brace + (scanStr (scanStep g c) p).bracket := by
        intro p q hpq
        have := h (c :: p) q (by rw [hpq]; rfl)
        rwa [scanStr_cons] at this
      rw [ih (scanStep g c) (l0 ++ [c]) rs h2]
      simp [scanStr_cons]

end StreamSpec

namespace StreamSpec

theorem container_shape_safe (v : Json) (hv : isContainerB v = true) :
    ∃ mid, Safe mid ∧
      (serialize v = '{' :: (mid ++ ['}']) ∨ serialize v = '[' :: (mid ++ [']'])) := by
  cases v with
  | obj ms => exact ⟨serializeObj ms, serializeObj_safe ms, Or.inl rfl⟩
  | arr xs => exact ⟨serializeArr xs, serializeArr_safe xs, Or.inr rfl⟩
  | null => exact absurd hv (by decide)
  | bool b => exact absurd hv (by simp [isContainerB])
  | num ds => exact absurd hv (by simp [isContainerB])
  | str cs => exact absurd hv (by simp [isContainerB])

/-- Scanning a whole container text from between-spans state: exactly one
balanced span — the text itself — is found and handed to the parse
function, whose result (if any) is appended to the accumulator. -/
theorem tpm_value (pd : List Char → Option Json) (v : Json)
    (hv : isContainerB v = true) (rs : List Json) :
    List.foldl (tpmStep pd) ⟨0, false, false, none, rs⟩ (serialize v) =
      ⟨0, false, false, none, rs ++ (pd (serialize v)).toList⟩ := by
  obtain ⟨mid, hsafe, hshape⟩ := container_shape_safe v hv
  rcases hshape with hs | hs
  · rw [hs, List.foldl_cons]
    have hstep1 : tpmStep pd ⟨0, false, false, none, rs⟩ '{' =
        ⟨1, false, false, some ['{'], rs⟩ := rfl
    rw [hstep1, List.foldl_append]
    have hcond : ∀ p q, mid = p ++ q →
        1 ≤ (scanStr ⟨1, 0, false, false⟩ p).brace + (scanStr ⟨1, 0, false, false⟩ p).bracket := by
      intro p q hpq
      rw [scanStr_openBrace]
      obtain ⟨hb0, hk0⟩ := hsafe.2 p q hpq
      dsimp only
      omega
    have hins := tpm_inside pd mid ⟨1, 0, false, false⟩ ['{'] rs hcond
    dsimp only at hins
    rw [show (1 : Int) + 0 = 1 from rfl] at hins
    rw [hins, scanStr_openBrace, hsafe.1]
    have hstep2 : tpmStep pd
        ⟨(cleanSt.brace + 1) + cleanSt.bracket, cleanSt.inString, cleanSt.escapeNext,
         some (['{'] ++ mid), rs⟩ '}' =
        ⟨0, false, false, none, rs ++ (pd ((['{'] ++ mid) ++ ['}'])).toList⟩ := rfl
    rw [show List.foldl (tpmStep pd)
        ⟨(cleanSt.brace + 1) + cleanSt.bracket, cleanSt.inString, cleanSt.escapeNext,
         some (['{'] ++ mid), rs⟩ ['}'] =
        tpmStep pd ⟨(cleanSt.brace + 1) + cleanSt.bracket, cleanSt.inString,
          cleanSt.escapeNext, some (['{'] ++ mid), rs⟩ '}' from rfl, hstep2]
    simp
  · rw [hs, List.foldl_cons]
    have hstep1 : tpmStep pd ⟨0, false, false, none, rs⟩ '[' =
        ⟨1, false, false, some ['['], rs⟩ := rfl
    rw [hstep1, List.foldl_append]
    have hcond : ∀ p q, mid = p ++ q →
        1 ≤ (scanStr ⟨0, 1, false, false⟩ p).brace + (scanStr ⟨0, 1, false, false⟩ p).bracket := by
      intro p q hpq
      rw [scanStr_openBracket]
      obtain ⟨hb0, hk0⟩ := hsafe.2 p q hpq
      dsimp only
      omega
    have hins := tpm_inside pd mid ⟨0, 1, false, false⟩ ['['] rs hcond
    dsimp only at hins
    rw [show (0 : Int) + 1 = 1 from rfl] at hins
    rw [hins, scanStr_openBracket, hsafe.1]
    have hstep2 : tpmStep pd
        ⟨cleanSt.brace + (cleanSt.bracket + 1), cleanSt.inString, cleanSt.escapeNext,
         some (['['] ++ mid), rs⟩ ']' =
        ⟨0, false, false, none, rs ++ (pd ((['['] ++ mid) ++ [']'])).toList⟩ := rfl
    rw [show List.foldl (tpmStep pd)
        ⟨cleanSt.brace + (cleanSt.bracket + 1), cleanSt.inString, cleanSt.escapeNext,
         some (['['] ++ mid), rs⟩ [']'] =
        tpmStep pd ⟨cleanSt.brace + (cleanSt.bracket + 1), cleanSt.inString,
          cleanSt.escapeNext, some (['['] ++ mid), rs⟩ ']' from rfl, hstep2]
    simp

/-- Two concatenated container texts are split back into exactly their two
spans, each parsed independently. -/
theorem tpm_concat2 (pd : List Char → Option Json) (v1 v2 : Json)
    (hv1 : isContainerB v1 = true) (hv2 : isContainerB v2 = true) :
    tryParseMultipleJson pd (serialize v1 ++ serialize v2) =
      (pd (serialize v1)).toList ++ (pd (serialize v2)).toList := by
  unfold tryParseMultipleJson
  rw [List.foldl_append]
  rw [show mjInit = (⟨0, false, false, none, []⟩ : MJState) from rfl,
    tpm_value pd v1 hv1 [], tpm_value pd v2 hv2 _]
  simp

end StreamSpec

namespace StreamSpec

theorem trimL_wrap_ex (a : Char) (ha : isWS a = false) (b : Char)
    (hb : isWS b = false) (l : List Char)
    (hshape : ∃ mid, l = a :: (mid ++ [b])) : trimL l = l := by
  obtain ⟨mid, hm⟩ := hshape
  rw [hm, trimL_wrap a mid b ha hb]

theorem trimL_concat_containers (v1 v2 : Json)
    (hv1 : isContainerB v1 = true) (hv2 : isContainerB v2 = true) :
    trimL (serialize v1 ++ serialize v2) = serialize v1 ++ serialize v2 := by
  obtain ⟨m1, _, hs1⟩ := container_shape_safe v1 hv1
  obtain ⟨m2, _, hs2⟩ := container_shape_safe v2 hv2
  rcases hs1 with hs1 | hs1 <;> rcases hs2 with hs2 | hs2 <;> rw [hs1, hs2]
  · exact trimL_wrap_ex '{' (by decide) '}' (by decide) _
      ⟨m1 ++ '}' :: '{' :: m2, by simp⟩
  · exact trimL_wrap_ex '{' (by decide) ']' (by decide) _
      ⟨m1 ++ '}' :: '[' :: m2, by simp⟩
  · exact trimL_wrap_ex '[' (by decide) '}' (by decide) _
      ⟨m1 ++ ']' :: '{' :: m2, by simp⟩
  · exact trimL_wrap_ex '[' (by decide) ']' (by decide) _
      ⟨m1 ++ ']' :: '[' :: m2, by simp⟩

/-- Feeding the concatenation of two container texts in one chunk from the
fresh state: the whole-buffer parse fails (hypothesis, as it does for
`JSON.parse` on concatenated values), the balanced spans are parsed
independently, both values are emitted as one array, and the parse state
is reset. -/
theorem pjc_concat2 (pd : List Char → Option Json) (v1 v2 : Json)
    (hv1 : isContainerB v1 = true) (hv2 : isContainerB v2 = true)
    (w1 w2 : Json) (hw1 : pd (serialize v1) = some w1)
    (hw2 : pd (serialize v2) = some w2)
    (hfail : pd (serialize v1 ++ serialize v2) = none) :
    processJsonChunk pd (serialize v1 ++ serialize v2) initPS =
      (initPS, some (.arr (.cons w1 (.cons w2 .nil)))) := by
  have hne : serialize v1 ++ serialize v2 ≠ [] := by
    simp [serialize_container_ne_nil v1 hv1]
  have hbr : startsBr (trimL (initPS.buffer ++ (serialize v1 ++ serialize v2))) = true := by
    show startsBr (trimL ([] ++ (serialize v1 ++ serialize v2))) = true
    rw [List.nil_append]
    obtain ⟨m1, _, hs1⟩ := container_shape_safe v1 hv1
    rcases hs1 with hs1 | hs1 <;> rw [hs1, List.cons_append]
    · obtain ⟨m, hm⟩ := trimL_cons_head '{' (by decide) ((m1 ++ ['}']) ++ serialize v2)
      rw [hm]
      simp [startsBr, startsWithL]
    · obtain ⟨m, hm⟩ := trimL_cons_head '[' (by decide) ((m1 ++ [']']) ++ serialize v2)
      rw [hm]
      simp [startsBr, startsWithL]
  have hscan0 : scanStr ⟨initPS.braceCount, initPS.bracketCount, initPS.inString,
      initPS.escapeNext⟩ (serialize v1 ++ serialize v2) = cleanSt := by
    show scanStr cleanSt (serialize v1 ++ serialize v2) = cleanSt
    rw [scanStr_append, serialize_balanced v1, serialize_balanced v2]
  unfold processJsonChunk
  rw [hscan0]
  have hgate : ((if !(initPS.isParsingJson ||
        startsBr (trimL (initPS.buffer ++ (serialize v1 ++ serialize v2)))) &&
        startsBr (trimL (serialize v1 ++ serialize v2)) then true
      else initPS.isParsingJson ||
        startsBr (trimL (initPS.buffer ++ (serialize v1 ++ serialize v2)))) = true ∧
      cleanSt.brace = 0 ∧ cleanSt.bracket = 0 ∧ cleanSt.inString = false) := by
    refine ⟨?_, rfl, rfl, rfl⟩
    rw [hbr]
    simp
  rw [if_pos hgate]
  have htb : trimL (initPS.buffer ++ (serialize v1 ++ serialize v2)) =
      serialize v1 ++ serialize v2 := by
    show trimL ([] ++ (serialize v1 ++ serialize v2)) = _
    rw [List.nil_append]
    exact trimL_concat_containers v1 v2 hv1 hv2
  rw [htb, if_neg hne, hfail]
  rw [tpm_concat2 pd v1 v2 hv1 hv2, hw1, hw2]
  rfl

end StreamSpec

namespace StreamSpec

/-- Claim C4, amended: feeding the single payload `\x7b"a":1\x7d\x7b"b":2\x7d`
from the initial parse state yields exactly the two Records in order (as
one JavaScript array handed to the caller, which unpacks it element by
element); in general, when the whole-buffer parse fails on a balanced
buffer made of two concatenated container texts, the buffer is split into
its balanced top-level spans and each span is parsed independently.
(Amendment: the parse state is reset only when at least one span parses
successfully; when every span fails the buffer and scan state are
retained, see the counterexample.) -/
theorem c4_concat_amended :
    (processJsonChunk jsonParse ("\x7b\"a\":1\x7d\x7b\"b\":2\x7d".toList) initPS =
      (initPS, some (Json.arr (.cons (Json.obj (.cons ['a'] (.num [1]) .nil))
        (.cons (Json.obj (.cons ['b'] (.num [2]) .nil)) .nil))))) ∧
    (∀ (pd : List Char → Option Json) (v1 v2 : Json),
      isContainerB v1 = true → isContainerB v2 = true →
      ∀ w1 w2, pd (serialize v1) = some w1 → pd (serialize v2) = some w2 →
        pd (serialize v1 ++ serialize v2) = none →
        processJsonChunk pd (serialize v1 ++ serialize v2) initPS =
          (initPS, some (.arr (.cons w1 (.cons w2 .nil))))) := by
  constructor
  · rfl
  · intro pd v1 v2 hv1 hv2 w1 w2 hw1 hw2 hfail
    exact pjc_concat2 pd v1 v2 hv1 hv2 w1 w2 hw1 hw2 hfail

/-- Claim C4's unconditional reset clause is false on the code: the chunk
`\x7bx\x7d` is balanced and the whole-buffer parse fails, but its only
span also fails to parse, so `tryParseMultipleJson` returns nothing and
the carry buffer and scan state are retained instead of being reset. -/
theorem c4_reset_counterexample :
    processJsonChunk jsonParse ("\x7bx\x7d".toList) initPS =
      (⟨['{', 'x', '}'], true, 0, 0, false, false⟩, none) ∧
    (['{', 'x', '}'] : List Char) ≠ [] := by
  exact ⟨rfl, by simp⟩

/-- Witness for the amended C4: the general split theorem applied to the
two concrete objects. -/
theorem c4_concat_witness :
    processJsonChunk jsonParse
      (serialize (Json.obj (.cons ['a'] (.num [1]) .nil)) ++
       serialize (Json.obj (.cons ['b'] (.num [2]) .nil))) initPS =
      (initPS, some (Json.arr (.cons (Json.obj (.cons ['a'] (.num [1]) .nil))
        (.cons (Json.obj (.cons ['b'] (.num [2]) .nil)) .nil)))) :=
  c4_concat_amended.2 jsonParse
    (Json.obj (.cons ['a'] (.num [1]) .nil))
    (Json.obj (.cons ['b'] (.num [2]) .nil))
    rfl rfl
    (Json.obj (.cons ['a'] (.num [1]) .nil))
    (Json.obj (.cons ['b'] (.num [2]) .nil))
    rfl rfl rfl

end StreamSpec

namespace StreamSpec

/-! ### The delivery queue and backpressure machinery of
`StreamProcessorOptimized` (lines 661-1257)

Records are abstract (`α`).  The webview is a presence flag plus a success
oracle indexed by the number of `postMessage` attempts so far (a thrown
`postMessage` is a failed attempt).  Wall-clock comparisons
(`now - lastSendTime >= currentMessageInterval`) enter as the boolean
`ie` (interval elapsed) at exactly the call sites where the source reads
the clock.  `sent` is the transcript of successfully posted `data`
arrays; `onData`, the `FileWriter` and the timers are external effects
with no bearing on the modelled state. -/

structure Env where
  hasWebview : Bool
  okF : Nat → Bool

structure Cfg where
  maxQueueLength : Nat
  maxBatchSize : Nat
  ensureDataIntegrity : Bool
  enableAdaptive : Bool

/-- The mutable fields of `StreamProcessorOptimized` that the queueing
claims observe.  `messageQueue` holds the `data` arrays of the queue
items (every enqueued `data` is a batch array; timestamps are dropped). -/
structure ProcState (α : Type) where
  isStopped : Bool
  batchBuffer : List α
  messageQueue : List (List α)
  pendingDataBuffer : List α
  totalDataReceived : Nat
  totalDataSent : Nat
  currentBatchSize : Nat
  queueLengthHistory : List Nat
  attempts : Nat
  sent : List (List α)

/-- The state `processStream` resets at session start (lines 726-736);
`bs` is the unclamped `initialBatchSize || 20`. -/
def initProc (α : Type) (bs : Nat) : ProcState α :=
  ⟨false, [], [], [], 0, 0, bs, [], 0, []⟩

/-- `sendBatchImmediately(batch)` (lines 1153-1175). -/
def sendBatchImmediately (env : Env) (cfg : Cfg) (batch : List α)
    (st : ProcState α) : ProcState α :=
  if batch.isEmpty || !env.hasWebview || st.isStopped then st
  else if env.okF st.attempts then
    { st with
        attempts := st.attempts + 1
        sent := st.sent ++ [batch]
        totalDataSent := st.totalDataSent + batch.length }
  else
    let st1 := { st with attempts := st.attempts + 1 }
    if cfg.ensureDataIntegrity then
      { st1 with pendingDataBuffer := st1.pendingDataBuffer ++ batch }
    else st1

/-- `sendNextBatch()` (lines 1205-1229): pending buffer first
(`splice(0, currentBatchSize)`), then the oldest queue item. -/
def sendNextBatch (env : Env) (cfg : Cfg) (st : ProcState α) : ProcState α :=
  if st.isStopped then st
  else if !st.pendingDataBuffer.isEmpty then
    sendBatchImmediately env cfg (st.pendingDataBuffer.take st.currentBatchSize)
      { st with pendingDataBuffer := st.pendingDataBuffer.drop st.currentBatchSize }
  else if st.messageQueue.isEmpty || !env.hasWebview then st
  else
    match st.messageQueue with
    | [] => st
    | q :: rest => sendBatchImmediately env cfg q { st with messageQueue := rest }

/-- The re-chunking loop of `forceMergeAndSend`
(`for (let i = 0; i < allData.length; i += maxBatchSize)`), written with
an explicit fuel: the loop advances by `m ≥ 1` positions per pass, so a
fuel equal to the list length covers every pass. -/
def chunksOfAux (m : Nat) : Nat → List α → List (List α)
  | 0, _ => []
  | _ + 1, [] => []
  | fuel + 1, x :: xs => (x :: xs).take m :: chunksOfAux m fuel ((x :: xs).drop m)

def chunksOf (m : Nat) (l : List α) : List (List α) := chunksOfAux m l.length l

/-- `forceMergeAndSend()` (lines 1112-1148). -/
def forceMergeAndSend (env : Env) (cfg : Cfg) (st : ProcState α) : ProcState α :=
  if st.messageQueue.isEmpty && st.pendingDataBuffer.isEmpty then st
  else
    let allData := st.messageQueue.flatten ++ st.pendingDataBuffer
    let st1 := { st with messageQueue := [], pendingDataBuffer := [] }
    let m := cfg.maxBatchSize * 2
    if m < allData.length then
      (chunksOf m allData).foldl (fun s b => sendBatchImmediately env cfg b s) st1
    else sendBatchImmediately env cfg allData st1

/-- `mergeQueueItems()` (lines 1234-1257): merge the oldest half of the
queue into a single item. -/
def mergeQueueItems (st : ProcState α) : ProcState α :=
  if st.messageQueue.length < 2 then st
  else
    let mergeCount := st.messageQueue.length / 2
    { st with messageQueue :=
        (st.messageQueue.take mergeCount).flatten :: st.messageQueue.drop mergeCount }

/-- Recording of the queue length history (push, then shift past 10). -/
def histPush (h : List Nat) (n : Nat) : List Nat :=
  let h2 := h ++ [n]
  if 10 < h2.length then h2.drop 1 else h2

/-- `flushBatchBuffer()` (lines 1054-1107). -/
def flushBatchBuffer (env : Env) (cfg : Cfg) (ie : Bool)
    (st : ProcState α) : ProcState α :=
  if st.batchBuffer.isEmpty || !env.hasWebview || st.isStopped then st
  else
    let batch := st.batchBuffer
    let st1 := { st with batchBuffer := [] }
    let st2 :=
      if cfg.ensureDataIntegrity then
        let stp := { st1 with pendingDataBuffer := st1.pendingDataBuffer ++ batch }
        if cfg.maxQueueLength ≤ stp.messageQueue.length then
          forceMergeAndSend env cfg stp
        else { stp with messageQueue := stp.messageQueue ++ [batch] }
      else
        let stm :=
          if cfg.maxQueueLength ≤ st1.messageQueue.length then mergeQueueItems st1
          else st1
        { stm with messageQueue := stm.messageQueue ++ [batch] }
    let st3 :=
      if cfg.enableAdaptive then
        { st2 with queueLengthHistory :=
            histPush st2.queueLengthHistory st2.messageQueue.length }
      else st2
    if ie then sendNextBatch env cfg st3 else st3

/-- `handleData(data)` (lines 1026-1049). -/
def handleData (env : Env) (cfg : Cfg) (ie : Bool) (r : α)
    (st : ProcState α) : ProcState α :=
  if st.isStopped then st
  else
    let st1 := { st with
        totalDataReceived := st.totalDataReceived + 1
        batchBuffer := st.batchBuffer ++ [r] }
    if st1.currentBatchSize ≤ st1.batchBuffer.length then
      flushBatchBuffer env cfg ie st1
    else st1

theorem sendBatchImmediately_messageQueue (env : Env) (cfg : Cfg)
    (batch : List α) (st : ProcState α) :
    (sendBatchImmediately env cfg batch st).messageQueue = st.messageQueue := by
  unfold sendBatchImmediately
  split_ifs <;> rfl

/-- The body of the `while (this.messageQueue.length > 0)` loop of
`flushAllBuffers`, recursing over the queue contents (`shift()` then
`sendBatchImmediately`, which never touches `messageQueue`). -/
def drainList (env : Env) (cfg : Cfg) : List (List α) → ProcState α → ProcState α
  | [], st => st
  | q :: rest, st =>
      drainList env cfg rest (sendBatchImmediately env cfg q { st with messageQueue := rest })

/-- The `while (this.messageQueue.length > 0)` loop of `flushAllBuffers`. -/
def drainQueue (env : Env) (cfg : Cfg) (st : ProcState α) : ProcState α :=
  drainList env cfg st.messageQueue st

/-- `flushAllBuffers()` (lines 1180-1200).  Note the source sends the
pending buffer and only afterwards assigns `pendingDataBuffer = []`,
wiping whatever the send left there. -/
def flushAllBuffers (env : Env) (cfg : Cfg) (ie : Bool)
    (st : ProcState α) : ProcState α :=
  let st1 := if !st.batchBuffer.isEmpty then flushBatchBuffer env cfg ie st else st
  let st2 :=
    if !st1.pendingDataBuffer.isEmpty then
      let s := sendBatchImmediately env cfg st1.pendingDataBuffer st1
      { s with pendingDataBuffer := [] }
    else st1
  drainQueue env cfg st2

/-- The buffer-flushing tail of `cleanup()` (lines 1596-1622); timers and
the file writer are external. -/
def cleanupFlush (env : Env) (cfg : Cfg) (ie : Bool)
    (st : ProcState α) : ProcState α :=
  if cfg.ensureDataIntegrity then flushAllBuffers env cfg ie st
  else flushBatchBuffer env cfg ie st

/-- `stop()` (lines 977-1021): set the stop flag, then either flush all
buffers (integrity mode) or clear them, then run `cleanup()`. -/
def stop (env : Env) (cfg : Cfg) (st : ProcState α) : ProcState α :=
  let st1 := { st with isStopped := true }
  let st2 :=
    if cfg.ensureDataIntegrity then flushAllBuffers env cfg false st1
    else { st1 with batchBuffer := [], messageQueue := [], pendingDataBuffer := [] }
  cleanupFlush env cfg false st2

/-- `getStatus().dataIntegrity.pendingCount` (line 1642):
`batchBuffer.length + messageQueue.length + pendingDataBuffer.length`,
counting queue items, not the records inside them. -/
def pendingCount (st : ProcState α) : Nat :=
  st.batchBuffer.length + st.messageQueue.length + st.pendingDataBuffer.length

end StreamSpec

namespace StreamSpec

/-! ### Queue-length lemmas -/

theorem foldSend_messageQueue (env : Env) (cfg : Cfg) :
    ∀ (bs : List (List α)) (st : ProcState α),
      (bs.foldl (fun s b => sendBatchImmediately env cfg b s) st).messageQueue =
        st.messageQueue := by
  intro bs
  induction bs with
  | nil => intro st; rfl
  | cons b tl ih =>
      intro st
      rw [List.foldl_cons, ih, sendBatchImmediately_messageQueue]

theorem forceMergeAndSend_messageQueue (env : Env) (cfg : Cfg) (st : ProcState α) :
    (forceMergeAndSend env cfg st).messageQueue = [] ∨
    (forceMergeAndSend env cfg st).messageQueue = st.messageQueue := by
  unfold forceMergeAndSend
  dsimp only
  split_ifs with h1 h2
  · exact Or.inr rfl
  · rw [foldSend_messageQueue]
    exact Or.inl rfl
  · rw [sendBatchImmediately_messageQueue]
    exact Or.inl rfl

theorem forceMergeAndSend_queue_bound (env : Env) (cfg : Cfg) (st : ProcState α)
    (h : st.messageQueue.length ≤ cfg.maxQueueLength) :
    (forceMergeAndSend env cfg st).messageQueue.length ≤ cfg.maxQueueLength := by
  rcases forceMergeAndSend_messageQueue env cfg st with h0 | h0 <;> rw [h0]
  · simp
  · exact h

theorem sendNextBatch_queue_le (env : Env) (cfg : Cfg) (st : ProcState α) :
    (sendNextBatch env cfg st).messageQueue.length ≤ st.messageQueue.length := by
  unfold sendNextBatch
  split_ifs with h1 h2 h3
  · exact le_refl _
  · rw [sendBatchImmediately_messageQueue]
  · exact le_refl _
  · cases hq : st.messageQueue with
    | nil => simp [hq]
    | cons q rest =>
        simp only [hq, sendBatchImmediately_messageQueue]
        simp

theorem mergeQueueItems_queue_le (st : ProcState α) :
    (mergeQueueItems st).messageQueue.length ≤ st.messageQueue.length := by
  unfold mergeQueueItems
  split_ifs with h1
  · exact le_refl _
  · simp only [List.length_cons, List.length_drop]
    omega

theorem mergeQueueItems_length (st : ProcState α) (h : 2 ≤ st.messageQueue.length) :
    (mergeQueueItems st).messageQueue.length =
      st.messageQueue.length - st.messageQueue.length / 2 + 1 := by
  unfold mergeQueueItems
  rw [if_neg (by omega)]
  simp only [List.length_cons, List.length_drop]

theorem mergeQueueItems_push_bound (st' : ProcState α) (M : Nat) (h4 : 4 ≤ M)
    (hlen : st'.messageQueue.length ≤ M) :
    (mergeQueueItems st').messageQueue.length + 1 ≤ M := by
  by_cases h2 : 2 ≤ st'.messageQueue.length
  · rw [mergeQueueItems_length st' h2]
    omega
  · have hid : mergeQueueItems st' = st' := by
      unfold mergeQueueItems
      rw [if_pos (by omega)]
    rw [hid]
    omega

theorem flushBatchBuffer_queue_bound (env : Env) (cfg : Cfg) (ie : Bool)
    (st : ProcState α)
    (hcfg : cfg.ensureDataIntegrity = true ∨ 4 ≤ cfg.maxQueueLength)
    (h : st.messageQueue.length ≤ cfg.maxQueueLength) :
    (flushBatchBuffer env cfg ie st).messageQueue.length ≤ cfg.maxQueueLength := by
  unfold flushBatchBuffer
  dsimp only
  split_ifs
  all_goals try exact h
  all_goals try refine le_trans (sendNextBatch_queue_le env cfg _) ?_
  all_goals try dsimp only
  all_goals try exact forceMergeAndSend_queue_bound env cfg _ h
  all_goals try simp only [List.length_append, List.length_cons]
  all_goals
    rcases hcfg with hci | h4
  all_goals try simp_all
  all_goals first
    | omega
    | exact mergeQueueItems_push_bound _ _ h4 h

theorem handleData_queue_bound (env : Env) (cfg : Cfg) (ie : Bool) (r : α)
    (st : ProcState α)
    (hcfg : cfg.ensureDataIntegrity = true ∨ 4 ≤ cfg.maxQueueLength)
    (h : st.messageQueue.length ≤ cfg.maxQueueLength) :
    (handleData env cfg ie r st).messageQueue.length ≤ cfg.maxQueueLength := by
  unfold handleData
  dsimp only
  split_ifs
  · exact h
  · exact flushBatchBuffer_queue_bound env cfg ie _ hcfg h
  · exact h

theorem drainList_messageQueue (env : Env) (cfg : Cfg) :
    ∀ (L : List (List α)) (st : ProcState α), st.messageQueue = L →
      (drainList env cfg L st).messageQueue = [] := by
  intro L
  induction L with
  | nil => intro st h; exact h
  | cons q rest ih =>
      intro st h
      unfold drainList
      refine ih _ ?_
      rw [sendBatchImmediately_messageQueue]

theorem drainQueue_queue_nil (env : Env) (cfg : Cfg) (st : ProcState α) :
    (drainQueue env cfg st).messageQueue = [] :=
  drainList_messageQueue env cfg st.messageQueue st rfl

theorem flushAllBuffers_queue_nil (env : Env) (cfg : Cfg) (ie : Bool)
    (st : ProcState α) :
    (flushAllBuffers env cfg ie st).messageQueue = [] := by
  unfold flushAllBuffers
  exact drainQueue_queue_nil env cfg _

theorem cleanupFlush_queue_bound (env : Env) (cfg : Cfg) (ie : Bool)
    (st : ProcState α)
    (hcfg : cfg.ensureDataIntegrity = true ∨ 4 ≤ cfg.maxQueueLength)
    (h : st.messageQueue.length ≤ cfg.maxQueueLength) :
    (cleanupFlush env cfg ie st).messageQueue.length ≤ cfg.maxQueueLength := by
  unfold cleanupFlush
  split_ifs
  · rw [flushAllBuffers_queue_nil]
    simp
  · exact flushBatchBuffer_queue_bound env cfg ie st hcfg h

theorem stop_queue_bound (env : Env) (cfg : Cfg) (st : ProcState α)
    (hcfg : cfg.ensureDataIntegrity = true ∨ 4 ≤ cfg.maxQueueLength)
    (_h : st.messageQueue.length ≤ cfg.maxQueueLength) :
    (stop env cfg st).messageQueue.length ≤ cfg.maxQueueLength := by
  unfold stop
  dsimp only
  split_ifs with h1
  · refine cleanupFlush_queue_bound env cfg false _ hcfg ?_
    rw [flushAllBuffers_queue_nil]
    simp
  · refine cleanupFlush_queue_bound env cfg false _ hcfg ?_
    simp

/-! ### Session steps for the backpressure invariant

Every mutation of the optimized processor's queueing state happens inside
one of these operations (data arrival, timer-driven send, flushes, stop);
a run is a chain of them from the fresh session state. -/

inductive Step (env : Env) (cfg : Cfg) : ProcState α → ProcState α → Prop where
  | handle (ie : Bool) (r : α) (st : ProcState α) :
      Step env cfg st (handleData env cfg ie r st)
  | flush (ie : Bool) (st : ProcState α) :
      Step env cfg st (flushBatchBuffer env cfg ie st)
  | send (st : ProcState α) : Step env cfg st (sendNextBatch env cfg st)
  | forceMerge (st : ProcState α) : Step env cfg st (forceMergeAndSend env cfg st)
  | merge (st : ProcState α) : Step env cfg st (mergeQueueItems st)
  | flushAll (ie : Bool) (st : ProcState α) :
      Step env cfg st (flushAllBuffers env cfg ie st)
  | cleanup (ie : Bool) (st : ProcState α) :
      Step env cfg st (cleanupFlush env cfg ie st)
  | stopStep (st : ProcState α) : Step env cfg st (stop env cfg st)

def Reach (env : Env) (cfg : Cfg) : ProcState α → ProcState α → Prop :=
  Relation.ReflTransGen (Step env cfg)

theorem step_queue_bound (env : Env) (cfg : Cfg) {s t : ProcState α}
    (hcfg : cfg.ensureDataIntegrity = true ∨ 4 ≤ cfg.maxQueueLength)
    (hstep : Step env cfg s t)
    (h : s.messageQueue.length ≤ cfg.maxQueueLength) :
    t.messageQueue.length ≤ cfg.maxQueueLength := by
  cases hstep with
  | handle ie r => exact handleData_queue_bound env cfg ie r s hcfg h
  | flush ie => exact flushBatchBuffer_queue_bound env cfg ie s hcfg h
  | send => exact le_trans (sendNextBatch_queue_le env cfg s) h
  | forceMerge => exact forceMergeAndSend_queue_bound env cfg s h
  | merge => exact le_trans (mergeQueueItems_queue_le s) h
  | flushAll ie => rw [flushAllBuffers_queue_nil]; simp
  | cleanup ie => exact cleanupFlush_queue_bound env cfg ie s hcfg h
  | stopStep => exact stop_queue_bound env cfg s hcfg h

end StreamSpec

namespace StreamSpec

/-! ### Concrete sessions used as evidence -/

/-- A webview that accepts every post. -/
def envOk : Env := ⟨true, fun _ => true⟩

/-- Integrity mode with the constructor defaults
(`maxQueueLength` 2000, `maxBatchSize` 100). -/
def cfgI : Cfg := ⟨2000, 100, true, true⟩

/-- Integrity off with `maxQueueLength` 1 (the constructor accepts any
truthy `options.maxQueueLength`). -/
def cfgN1 : Cfg := ⟨1, 100, false, true⟩

/-- One record received in integrity mode with `currentBatchSize` 1
(`minBatchSize: 1, initialBatchSize: 1`): `flushBatchBuffer` fires and
files the batch into both `pendingDataBuffer` and `messageQueue`. -/
def oneRecRun : ProcState Nat := handleData envOk cfgI false 0 (initProc Nat 1)

/-- The same session after the transport `end` handler
(lines 933-934: `flushBatchBuffer(); flushAllBuffers()`). -/
def oneRecEnd : ProcState Nat :=
  flushAllBuffers envOk cfgI false (flushBatchBuffer envOk cfgI false oneRecRun)

/-- Claim C5, amended: after any chain of processor operations from a state
whose queue respects the bound, `messageQueue.length ≤ maxQueueLength`
still holds — in integrity mode for every configuration, and with
integrity off provided `maxQueueLength ≥ 4` (the non-integrity merge
path re-inserts one merged item plus the new batch, which overflows tiny
bounds, see the counterexample). -/
theorem c5_backpressure_amended {α : Type} (env : Env) (cfg : Cfg)
    (hcfg : cfg.ensureDataIntegrity = true ∨ 4 ≤ cfg.maxQueueLength)
    (s t : ProcState α) (hs : s.messageQueue.length ≤ cfg.maxQueueLength)
    (hre : Reach env cfg s t) :
    t.messageQueue.length ≤ cfg.maxQueueLength := by
  induction hre with
  | refl => exact hs
  | tail hab hbc ih => exact step_queue_bound env cfg hcfg hbc ih

/-- Claim C5 as frozen is false with integrity off and `maxQueueLength` 1:
after the second record's enqueue returns, the queue holds two items,
because `mergeQueueItems` is a no-op on queues shorter than two and the
new batch is pushed regardless. -/
theorem c5_backpressure_counterexample :
    (handleData envOk cfgN1 false 1 (handleData envOk cfgN1 false 0
        (initProc Nat 1))).messageQueue.length = 2 ∧
    cfgN1.maxQueueLength = 1 ∧
    ¬ (handleData envOk cfgN1 false 1 (handleData envOk cfgN1 false 0
        (initProc Nat 1))).messageQueue.length ≤ cfgN1.maxQueueLength := by
  refine ⟨rfl, rfl, by decide⟩

/-- Witness for the amended C5: one `handleData` step from the fresh
session in integrity mode keeps the queue under the default bound. -/
theorem c5_backpressure_witness :
    (handleData envOk cfgI false (0 : Nat) (initProc Nat 1)).messageQueue.length ≤
      cfgI.maxQueueLength :=
  c5_backpressure_amended envOk cfgI (Or.inl rfl) (initProc Nat 1) _ (by decide)
    (Relation.ReflTransGen.single (Step.handle false 0 (initProc Nat 1)))

/-- Claim C1 is violated by the code: with integrity on, one received
record is filed into both `pendingDataBuffer` and `messageQueue` by
`flushBatchBuffer`, so `getStatus` reports `pendingCount = 2` against
`totalReceived = 1`, and the end-of-stream flush then delivers the record
twice, leaving `totalSent = 2 ≠ totalReceived = 1` at the terminal
state — exactly the mismatch the code's own end-handler warning
(lines 943-945) checks for. -/
theorem c1_integrity_violation :
    oneRecRun.totalDataReceived = 1 ∧ oneRecRun.totalDataSent = 0 ∧
    pendingCount oneRecRun = 2 ∧
    oneRecRun.totalDataReceived ≠ oneRecRun.totalDataSent + pendingCount oneRecRun ∧
    oneRecEnd.totalDataReceived = 1 ∧ oneRecEnd.totalDataSent = 2 ∧
    pendingCount oneRecEnd = 0 ∧
    oneRecEnd.totalDataReceived ≠ oneRecEnd.totalDataSent := by
  refine ⟨rfl, rfl, rfl, by decide, rfl, rfl, rfl, by decide⟩

/-- Claim C2 is violated by the code: the single accepted record `0` is
delivered twice — once from `pendingDataBuffer`, once from the queue item
holding the same batch — so the concatenation of delivered batches is
`[0, 0]`, not the input sequence `[0]`. -/
theorem c2_exactly_once_violation :
    oneRecEnd.sent.flatten = [0, 0] ∧ oneRecEnd.sent.flatten ≠ [0] := by
  refine ⟨rfl, by decide⟩

/-- A streaming state with one record still in `pendingDataBuffer` and one
in `batchBuffer`. -/
def c7pre : ProcState Nat :=
  { initProc Nat 20 with pendingDataBuffer := [5], batchBuffer := [7] }

/-- Claim C7 is violated by the code: `stop()` with integrity on sets
`isStopped` before flushing, so every send inside `flushAllBuffers`
returns without posting; the pending buffer is then wiped and the queue
drained into nothing, while `batchBuffer` is silently retained — nothing
is delivered.  (The claim's no-further-chunks part does hold: `handleData`
after `stop()` is a no-op.) -/
theorem c7_stop_discards :
    (stop envOk cfgI c7pre).sent = [] ∧
    (stop envOk cfgI c7pre).totalDataSent = 0 ∧
    (stop envOk cfgI c7pre).pendingDataBuffer = [] ∧
    (stop envOk cfgI c7pre).messageQueue = [] ∧
    (stop envOk cfgI c7pre).batchBuffer = [7] ∧
    (stop envOk cfgI c7pre).isStopped = true ∧
    handleData envOk cfgI false 9 (stop envOk cfgI c7pre) = stop envOk cfgI c7pre := by
  refine ⟨rfl, rfl, rfl, rfl, rfl, rfl, rfl⟩

end StreamSpec

namespace StreamSpec

/-! ### C6: the forced-merge path -/

theorem chunksOfAux_flatten (m : Nat) (hm : 1 ≤ m) :
    ∀ (fuel : Nat) (l : List α), l.length ≤ fuel →
      (chunksOfAux m fuel l).flatten = l := by
  intro fuel
  induction fuel with
  | zero =>
      intro l h
      cases l with
      | nil => rfl
      | cons x xs => simp at h
  | succ fuel ih =>
      intro l h
      cases l with
      | nil => rfl
      | cons x xs =>
          show ((x :: xs).take m :: chunksOfAux m fuel ((x :: xs).drop m)).flatten
              = x :: xs
          rw [List.flatten_cons, ih _ ?_, List.take_append_drop]
          simp only [List.length_drop, List.length_cons]
          simp only [List.length_cons] at h
          omega

theorem chunksOfAux_mem (m : Nat) (hm : 1 ≤ m) :
    ∀ (fuel : Nat) (l : List α) (b : List α), b ∈ chunksOfAux m fuel l →
      b.length ≤ m ∧ b ≠ [] := by
  intro fuel
  induction fuel with
  | zero => intro l b hb; simp [chunksOfAux] at hb
  | succ fuel ih =>
      intro l b hb
      cases l with
      | nil => simp [chunksOfAux] at hb
      | cons x xs =>
          rw [show chunksOfAux m (fuel + 1) (x :: xs)
              = (x :: xs).take m :: chunksOfAux m fuel ((x :: xs).drop m) from rfl] at hb
          rcases List.mem_cons.mp hb with h | h
          · subst h
            refine ⟨by simp, ?_⟩
            cases m with
            | zero => omega
            | succ k => simp
          · exact ih _ b h

theorem chunksOf_flatten (m : Nat) (hm : 1 ≤ m) (l : List α) :
    (chunksOf m l).flatten = l :=
  chunksOfAux_flatten m hm l.length l (le_refl _)

theorem chunksOf_mem (m : Nat) (hm : 1 ≤ m) (l : List α) (b : List α)
    (hb : b ∈ chunksOf m l) : b.length ≤ m ∧ b ≠ [] :=
  chunksOfAux_mem m hm l.length l b hb

/-- On a live webview with every post succeeding, `sendBatchImmediately`
on a nonempty batch takes its success branch. -/
theorem sendBatch_ok (env : Env) (cfg : Cfg) (b : List α) (st : ProcState α)
    (hb : b ≠ []) (hwv : env.hasWebview = true)
    (hok : env.okF st.attempts = true) (hst : st.isStopped = false) :
    sendBatchImmediately env cfg b st =
      { st with
          attempts := st.attempts + 1
          sent := st.sent ++ [b]
          totalDataSent := st.totalDataSent + b.length } := by
  unfold sendBatchImmediately
  simp [hwv, hst, hb, hok]

/-- Folding successful sends over a list of nonempty batches appends them
all to the delivery transcript, in order, without touching the pending
buffer. -/
theorem foldSend_ok (env : Env) (cfg : Cfg) (hwv : env.hasWebview = true)
    (hok : ∀ n, env.okF n = true) (bs : List (List α)) :
    ∀ (st : ProcState α), st.isStopped = false → (∀ b ∈ bs, b ≠ []) →
      (bs.foldl (fun s b => sendBatchImmediately env cfg b s) st).sent
          = st.sent ++ bs ∧
      (bs.foldl (fun s b => sendBatchImmediately env cfg b s) st).totalDataSent
          = st.totalDataSent + bs.flatten.length ∧
      (bs.foldl (fun s b => sendBatchImmediately env cfg b s) st).pendingDataBuffer
          = st.pendingDataBuffer ∧
      (bs.foldl (fun s b => sendBatchImmediately env cfg b s) st).isStopped
          = false := by
  induction bs with
  | nil => intro st hst _; simp [hst]
  | cons b tl ih =>
      intro st hst hne
      have hb : b ≠ [] := hne b (by simp)
      rw [List.foldl_cons, sendBatch_ok env cfg b st hb hwv (hok _) hst]
      have ih' := ih { st with
          attempts := st.attempts + 1
          sent := st.sent ++ [b]
          totalDataSent := st.totalDataSent + b.length }
        hst (fun x hx => hne x (by simp [hx]))
      rcases ih' with ⟨h1, h2, h3, h4⟩
      refine ⟨?_, ?_, ?_, h4⟩
      · rw [h1]; simp
      · rw [h2]; simp only [List.flatten_cons, List.length_append]; omega
      · rw [h3]

end StreamSpec

namespace StreamSpec

/-- Claim C6, amended: when the forced merge runs (the enqueue having
found the queue at or above `maxQueueLength` in integrity mode), it
concatenates all pending Batches -- queue contents followed by the
not-yet-queued pending buffer -- into one ordered Record sequence, clears
the queue and the pending buffer, re-chunks the sequence into deliveries
of at most `2 * maxBatchSize` Records each, and posts those deliveries
immediately to the webview in order, preserving every Record (no drop).
(Amendment: the deliveries are posted by `sendBatchImmediately`, not
re-enqueued onto the queue -- the queue is left empty, see the
counterexample.) -/
theorem c6_force_merge_amended {α : Type} (env : Env) (cfg : Cfg)
    (st : ProcState α) (hwv : env.hasWebview = true)
    (hok : ∀ n, env.okF n = true) (hst : st.isStopped = false)
    (hmb : 1 ≤ cfg.maxBatchSize) :
    ∃ ds : List (List α),
      (forceMergeAndSend env cfg st).messageQueue = [] ∧
      (forceMergeAndSend env cfg st).pendingDataBuffer = [] ∧
      (forceMergeAndSend env cfg st).sent = st.sent ++ ds ∧
      ds.flatten = st.messageQueue.flatten ++ st.pendingDataBuffer ∧
      (∀ b ∈ ds, b.length ≤ 2 * cfg.maxBatchSize) ∧
      (forceMergeAndSend env cfg st).totalDataSent =
        st.totalDataSent +
          (st.messageQueue.flatten ++ st.pendingDataBuffer).length := by
  have hm2 : 1 ≤ cfg.maxBatchSize * 2 := by omega
  unfold forceMergeAndSend
  by_cases hq : (st.messageQueue.isEmpty && st.pendingDataBuffer.isEmpty) = true
  · rw [if_pos hq]
    rcases (Bool.and_eq_true _ _).mp hq with ⟨h1, h2⟩
    rw [List.isEmpty_iff] at h1 h2
    exact ⟨[], by simp [h1], by simp [h2], by simp, by simp [h1, h2],
      by simp, by simp [h1, h2]⟩
  · rw [if_neg hq]
    dsimp only
    by_cases hlen :
        cfg.maxBatchSize * 2 <
          (st.messageQueue.flatten ++ st.pendingDataBuffer).length
    · rw [if_pos hlen]
      refine ⟨chunksOf (cfg.maxBatchSize * 2)
          (st.messageQueue.flatten ++ st.pendingDataBuffer), ?_, ?_, ?_, ?_, ?_, ?_⟩
      case _ => rw [foldSend_messageQueue]
      all_goals
        have hfold := foldSend_ok env cfg hwv hok
          (chunksOf (cfg.maxBatchSize * 2)
            (st.messageQueue.flatten ++ st.pendingDataBuffer))
          { st with messageQueue := [], pendingDataBuffer := [] }
          hst (fun b hb => (chunksOf_mem _ hm2 _ b hb).2)
      case _ => exact hfold.2.2.1
      case _ => exact hfold.1
      case _ => exact chunksOf_flatten _ hm2 _
      case _ =>
        intro b hb
        have := (chunksOf_mem _ hm2 _ b hb).1
        omega
      case _ =>
        rw [hfold.2.1, chunksOf_flatten _ hm2 _]
    · rw [if_neg hlen]
      by_cases hnil : st.messageQueue.flatten ++ st.pendingDataBuffer = []
      · have hsend : sendBatchImmediately env cfg
              (st.messageQueue.flatten ++ st.pendingDataBuffer)
              { st with messageQueue := [], pendingDataBuffer := [] }
            = { st with messageQueue := [], pendingDataBuffer := [] } := by
          simp [sendBatchImmediately, hnil]
        rw [hsend]
        exact ⟨[], rfl, rfl, by simp, by simp [hnil], by simp, by simp [hnil]⟩
      · rw [sendBatch_ok env cfg (st.messageQueue.flatten ++ st.pendingDataBuffer)
              { st with messageQueue := [], pendingDataBuffer := [] }
              hnil hwv (hok _) hst]
        refine ⟨[st.messageQueue.flatten ++ st.pendingDataBuffer],
          rfl, rfl, rfl, by simp, ?_, by simp⟩
        intro b hb
        rcases List.mem_singleton.mp hb with rfl
        omega

/-- A processor in integrity mode with `maxQueueLength` 1, a queued batch
`[1]`, and batch buffer `[2]`: flushing triggers the forced merge. -/
def c6pre : ProcState Nat :=
  { initProc Nat 1 with
      messageQueue := [[1]]
      batchBuffer := [2] }

/-- Integrity-mode configuration whose `maxQueueLength` 1 forces the
merge path on the first flush. -/
def cfgI1 : Cfg := ⟨1, 100, true, true⟩

/-- Claim C6 as stated is false: the forced merge does not re-enqueue the
re-chunked deliveries.  Flushing `c6pre` under `cfgI1` hits the forced
merge; the claim predicts the re-chunked deliveries (`[[1, 2]]`) end up
on the queue, but the queue comes back empty: the deliveries were posted
immediately (they appear in the sent transcript instead). -/
theorem c6_force_merge_counterexample :
    (flushBatchBuffer envOk cfgI1 false c6pre).messageQueue = [] ∧
    (flushBatchBuffer envOk cfgI1 false c6pre).sent = [[1, 2]] ∧
    chunksOf (cfgI1.maxBatchSize * 2)
      (c6pre.messageQueue.flatten ++ (c6pre.pendingDataBuffer ++ c6pre.batchBuffer))
      = [[1, 2]] ∧
    ([] : List (List Nat)) ≠ [[1, 2]] := by
  exact ⟨rfl, rfl, rfl, by simp⟩

/-- Witness for the amended C6 at the concrete state `c6pre`. -/
theorem c6_force_merge_witness :
    ∃ ds : List (List Nat),
      (forceMergeAndSend envOk cfgI1 c6pre).messageQueue = [] ∧
      (forceMergeAndSend envOk cfgI1 c6pre).pendingDataBuffer = [] ∧
      (forceMergeAndSend envOk cfgI1 c6pre).sent = c6pre.sent ++ ds ∧
      ds.flatten = c6pre.messageQueue.flatten ++ c6pre.pendingDataBuffer ∧
      (∀ b ∈ ds, b.length ≤ 2 * cfgI1.maxBatchSize) ∧
      (forceMergeAndSend envOk cfgI1 c6pre).totalDataSent =
        c6pre.totalDataSent +
          (c6pre.messageQueue.flatten ++ c6pre.pendingDataBuffer).length :=
  c6_force_merge_amended envOk cfgI1 c6pre rfl (fun _ => rfl) rfl (by decide)

end StreamSpec

namespace StreamSpec

/-! ### C9: adaptive-parameter bounds -/

/-- Fields of `StreamProcessorOptimizedOptions` feeding the adaptive
parameters; `none` is an absent option. -/
structure Opts where
  initialBatchSize : Option Nat
  minBatchSize : Option Nat
  maxBatchSize : Option Nat
  initialMessageInterval : Option Nat
  minMessageInterval : Option Nat
  maxMessageInterval : Option Nat

/-- JavaScript `options.x || d` on numeric options: both `undefined` and
`0` fall back to the default. -/
def orDefault : Option Nat → Nat → Nat
  | none, d => d
  | some 0, d => d
  | some (n + 1), _ => n + 1

def minBatchSizeOf (o : Opts) : Nat := orDefault o.minBatchSize 5

def maxBatchSizeOf (o : Opts) : Nat := orDefault o.maxBatchSize 100

/-- Constructor line 695: `Math.max(minB, Math.min(maxB, initial))`. -/
def ctorBatchSize (o : Opts) : Nat :=
  max (minBatchSizeOf o) (min (maxBatchSizeOf o) (orDefault o.initialBatchSize 20))

def minIntervalOf (o : Opts) : Nat := orDefault o.minMessageInterval 50

def maxIntervalOf (o : Opts) : Nat := orDefault o.maxMessageInterval 500

/-- Constructor line 701: the same clamp for the message interval. -/
def ctorInterval (o : Opts) : Nat :=
  max (minIntervalOf o) (min (maxIntervalOf o) (orDefault o.initialMessageInterval 100))

/-- Line 726 of `processStream`:
`this.currentBatchSize = this.options.initialBatchSize || 20` -- the raw
option, with no clamp. -/
def resetBatchSize (o : Opts) : Nat := orDefault o.initialBatchSize 20

/-- Line 727 of `processStream`:
`this.currentMessageInterval = this.options.initialMessageInterval || 100`. -/
def resetInterval (o : Opts) : Nat := orDefault o.initialMessageInterval 100

/-- State read and written by `adaptiveAdjust`. -/
structure AdaptSt where
  currentBatchSize : Nat
  currentMessageInterval : Nat
  queueLengthHistory : List Nat
  dataReceiveRate : Nat

/-- Embedding of `adaptiveAdjust` (lines 1296-1342).  The two queue-pressure
comparisons on the floating-point average (`avg > 0.7 * maxQ || max > 0.9 * maxQ`
and `avg < 0.3 * maxQ && max < 0.5 * maxQ`) enter as the oracles `ph` / `pl`;
`Math.floor(x * 1.2)` and friends are the exact rational floors. -/
def adaptiveAdjust (o : Opts) (ph pl : Bool) (st : AdaptSt) : AdaptSt :=
  if st.queueLengthHistory.length < 3 then st
  else
    let st1 :=
      if ph then
        { st with
            currentBatchSize :=
              min (maxBatchSizeOf o) (st.currentBatchSize * 12 / 10)
            currentMessageInterval :=
              min (maxIntervalOf o) (st.currentMessageInterval * 12 / 10) }
      else if pl then
        { st with
            currentBatchSize :=
              max (minBatchSizeOf o) (st.currentBatchSize * 9 / 10)
            currentMessageInterval :=
              max (minIntervalOf o) (st.currentMessageInterval * 9 / 10) }
      else st
    if 100 < st1.dataReceiveRate then
      { st1 with
          currentBatchSize :=
            min (maxBatchSizeOf o) (st1.currentBatchSize * 11 / 10) }
    else if st1.dataReceiveRate < 10 then
      { st1 with
          currentBatchSize :=
            max (minBatchSizeOf o) (st1.currentBatchSize * 95 / 100) }
    else st1

/-- Monotonicity facts for the floored growth and shrink factors. -/
theorem growTwelve (a : Nat) : a ≤ a * 12 / 10 := by omega

theorem growEleven (a : Nat) : a ≤ a * 11 / 10 := by omega

theorem shrinkNine (a : Nat) : a * 9 / 10 ≤ a := by omega

theorem shrinkNinetyFive (a : Nat) : a * 95 / 100 ≤ a := by omega

/-- Every adaptive adjustment does clamp: with a sane configuration the
batch size and interval stay inside their bands.  The violation of C9 is
elsewhere, in the `processStream` reset. -/
theorem adaptiveAdjust_bounds (o : Opts) (ph pl : Bool) (st : AdaptSt)
    (hbb : minBatchSizeOf o ≤ maxBatchSizeOf o)
    (hii : minIntervalOf o ≤ maxIntervalOf o)
    (hb1 : minBatchSizeOf o ≤ st.currentBatchSize)
    (hb2 : st.currentBatchSize ≤ maxBatchSizeOf o)
    (hi1 : minIntervalOf o ≤ st.currentMessageInterval)
    (hi2 : st.currentMessageInterval ≤ maxIntervalOf o) :
    minBatchSizeOf o ≤ (adaptiveAdjust o ph pl st).currentBatchSize ∧
    (adaptiveAdjust o ph pl st).currentBatchSize ≤ maxBatchSizeOf o ∧
    minIntervalOf o ≤ (adaptiveAdjust o ph pl st).currentMessageInterval ∧
    (adaptiveAdjust o ph pl st).currentMessageInterval ≤ maxIntervalOf o := by
  unfold adaptiveAdjust
  dsimp only
  split_ifs <;> try dsimp only
  all_goals refine ⟨?_, ?_, ?_, ?_⟩
  all_goals try simp only [min_def, max_def]
  all_goals first
    | omega
    | (split_ifs <;>
        (have a1 := growTwelve st.currentBatchSize
         have a2 := shrinkNine st.currentBatchSize
         have a3 := growEleven st.currentBatchSize
         have a4 := shrinkNinetyFive st.currentBatchSize
         have a5 := growEleven (st.currentBatchSize * 12 / 10)
         have a6 := shrinkNinetyFive (st.currentBatchSize * 12 / 10)
         have a7 := growEleven (st.currentBatchSize * 9 / 10)
         have a8 := shrinkNinetyFive (st.currentBatchSize * 9 / 10)
         have a9 := growEleven (maxBatchSizeOf o)
         have a10 := shrinkNinetyFive (maxBatchSizeOf o)
         have a11 := growEleven (minBatchSizeOf o)
         have a12 := shrinkNinetyFive (minBatchSizeOf o)
         omega))

end StreamSpec

namespace StreamSpec

/-- Options with `initialBatchSize` 200 above `maxBatchSize` 100, and
`initialMessageInterval` 600 above `maxMessageInterval` 500. -/
def optsOver : Opts :=
  ⟨some 200, some 5, some 100, some 600, some 50, some 500⟩

/-- Claim C9 fails on the code: the constructor clamps the initial batch
size and interval into their bands (lines 695 and 701), but the reset at
the top of `processStream` (lines 726-727) assigns the raw configured
initial values with no clamp, so with `initialBatchSize` 200 over
`maxBatchSize` 100 the session starts at `currentBatchSize` 200, outside
`[minBatchSize, maxBatchSize]`, and likewise the interval starts at 600,
outside `[minMessageInterval, maxMessageInterval]`.  (The adaptive
adjustments themselves do clamp, see `adaptiveAdjust_bounds`.) -/
theorem c9_reset_escapes_bounds :
    ctorBatchSize optsOver = 100 ∧
    minBatchSizeOf optsOver ≤ ctorBatchSize optsOver ∧
    ctorBatchSize optsOver ≤ maxBatchSizeOf optsOver ∧
    resetBatchSize optsOver = 200 ∧
    maxBatchSizeOf optsOver = 100 ∧
    ¬ resetBatchSize optsOver ≤ maxBatchSizeOf optsOver ∧
    ctorInterval optsOver = 500 ∧
    resetInterval optsOver = 600 ∧
    maxIntervalOf optsOver = 500 ∧
    ¬ resetInterval optsOver ≤ maxIntervalOf optsOver := by
  decide

end StreamSpec

namespace StreamSpec

/-! ### C8 / C10: the per-line dispatch and the session events -/

/-- SSE data-line marker `'data: '`. -/
def dataPfx : List Char := "data: ".toList

/-- Termination sentinel `'[DONE]'`. -/
def doneTok : List Char := "[DONE]".toList

/-- Unpacking of `result.completeJson` by the optimized data handler
(lines 863-873): `Array.isArray` sends each element to `handleData`
separately, otherwise the value goes through whole. -/
def recsOf : Option Json → List Json
  | none => []
  | some (Json.arr a) => arrToList a
  | some v => [v]

/-- Per-session state of `StreamProcessorOptimized.processStream`: the
closure variables (`lineBuffer` and the `processJsonChunk` state), the
processor fields, the number of `onComplete` invocations and whether the
promise has resolved. -/
structure SessState where
  ps : ParseState
  proc : ProcState Json
  lineBuffer : List Char
  completed : Nat
  resolved : Bool

/-- Session state at the top of `processStream` (after the reset). -/
def initSess : SessState := ⟨initPS, initProc Json 20, [], 0, false⟩

/-- One pass of the optimized `for (const line of lines)` body
(lines 803-888).  The returned flag is true when the loop stops early
(`break` on `isStopped`, or the `return` of the `[DONE]` branch). -/
def handleLine (pd : List Char → Option Json) (env : Env) (cfg : Cfg)
    (line : List Char) (st : SessState) : SessState × Bool :=
  if st.proc.isStopped then (st, true)
  else
    let t := trimL line
    if t = [] then (st, false)
    else if startsWithL dataPfx t then
      let dc := t.drop 6
      if trimL dc = doneTok then
        let p1 :=
          if trimL st.ps.buffer ≠ [] then
            match pd (trimL st.ps.buffer) with
            | some v => handleData env cfg false v st.proc
            | none => st.proc
          else st.proc
        let p2 := flushBatchBuffer env cfg false p1
        let p3 := flushAllBuffers env cfg false p2
        let p4 := cleanupFlush env cfg false p3
        ({ st with
            proc := p4
            completed := st.completed + 1
            resolved := true }, true)
      else
        let pr := processJsonChunk pd dc st.ps
        let p1 := (recsOf pr.2).foldl
          (fun p r => handleData env cfg false r p) st.proc
        ({ st with
            ps := pr.1
            proc := p1 }, false)
    else (st, false)

/-- The line loop, stopping when a pass says so. -/
def runLines (pd : List Char → Option Json) (env : Env) (cfg : Cfg) :
    List (List Char) → SessState → SessState
  | [], st => st
  | l :: rest, st =>
      let r := handleLine pd env cfg l st
      if r.2 then r.1 else runLines pd env cfg rest r.1

/-- One `data` event of the optimized handler (lines 781-894): stop-guard,
split the accumulated text on newlines, keep the final fragment as the
new `lineBuffer`, run the loop on the complete lines. -/
def dataEvent (pd : List Char → Option Json) (env : Env) (cfg : Cfg)
    (chunk : List Char) (st : SessState) : SessState :=
  if st.proc.isStopped then
    { st with
        proc := cleanupFlush env cfg false st.proc
        resolved := true }
  else
    let parts := (st.lineBuffer ++ chunk).splitOn '\n'
    let lb := parts.getLast?.getD []
    runLines pd env cfg parts.dropLast { st with lineBuffer := lb }

/-- The `end` event of the optimized handler (lines 895-954): flush the
dangling line and JSON buffer, flush all buffers, and invoke `onComplete`
-- unconditionally, whether or not `[DONE]` already completed the
session. -/
def endEvent (pd : List Char → Option Json) (env : Env) (cfg : Cfg)
    (st : SessState) : SessState :=
  let st1 :=
    if st.proc.isStopped = false ∧ trimL st.lineBuffer ≠ [] then
      let t := trimL st.lineBuffer
      if startsWithL dataPfx t then
        let dc := t.drop 6
        if trimL dc ≠ [] ∧ trimL dc ≠ doneTok then
          let pr := processJsonChunk pd dc st.ps
          match pr.2 with
          | some v =>
              { st with
                  ps := pr.1
                  proc := handleData env cfg false v st.proc }
          | none => { st with ps := pr.1 }
        else st
      else st
    else st
  let st2 :=
    if st1.proc.isStopped = false ∧ trimL st1.ps.buffer ≠ [] then
      match pd (trimL st1.ps.buffer) with
      | some v => { st1 with proc := handleData env cfg false v st1.proc }
      | none => st1
    else st1
  let p1 := flushBatchBuffer env cfg false st2.proc
  let p2 := flushAllBuffers env cfg false p1
  let p3 := cleanupFlush env cfg false p2
  { st2 with
      proc := p3
      completed := st2.completed + 1
      resolved := true }

/-- Transport events reaching the session. -/
inductive Ev where
  | data (chunk : List Char)
  | endEv

/-- A whole session: fold the events. -/
def runEvents (pd : List Char → Option Json) (env : Env) (cfg : Cfg)
    (evs : List Ev) (st : SessState) : SessState :=
  evs.foldl
    (fun s e =>
      match e with
      | Ev.data c => dataEvent pd env cfg c s
      | Ev.endEv => endEvent pd env cfg s) st

/-- Embedding of the original `StreamProcessor.processJsonChunk`
(lines 441-545): the same buffer/scan logic as the optimized one, with a
plain parse on completion and no multi-span fallback. -/
def processJsonChunkO (pd : List Char → Option Json)
    (chunk : List Char) (st : ParseState) : ParseState × Option Json :=
  let buffer := st.buffer ++ chunk
  let isP1 := st.isParsingJson || startsBr (trimL buffer)
  let isP := if !isP1 && startsBr (trimL chunk) then true else isP1
  let sc := scanStr ⟨st.braceCount, st.bracketCount, st.inString, st.escapeNext⟩ chunk
  if isP = true ∧ sc.brace = 0 ∧ sc.bracket = 0 ∧ sc.inString = false then
    let tb := trimL buffer
    if tb = [] then
      (⟨buffer, isP, sc.brace, sc.bracket, sc.inString, sc.escapeNext⟩, none)
    else
      match pd tb with
      | some parsed => (initPS, some parsed)
      | none =>
          (⟨buffer, isP, sc.brace, sc.bracket, sc.inString, sc.escapeNext⟩, none)
  else
    (⟨buffer, isP, sc.brace, sc.bracket, sc.inString, sc.escapeNext⟩, none)

/-- Observables of the original `StreamProcessor` line loop: the parse
state, the Records handed to `handleData`, the terminal signal count and
the stop flag. -/
structure SessO where
  ps : ParseState
  emitted : List Json
  completed : Nat
  stopped : Bool

def initSessO : SessO := ⟨initPS, [], 0, false⟩

/-- One pass of the original `for (const line of lines)` body
(lines 160-213). -/
def handleLineO (pd : List Char → Option Json) (line : List Char)
    (st : SessO) : SessO × Bool :=
  if st.stopped then (st, true)
  else
    let t := trimL line
    if t = [] then (st, false)
    else if startsWithL dataPfx t then
      let dc := t.drop 6
      if trimL dc = doneTok then
        ({ st with completed := st.completed + 1 }, true)
      else
        let pr := processJsonChunkO pd dc st.ps
        match pr.2 with
        | some v =>
            ({ st with
                ps := pr.1
                emitted := st.emitted ++ [v] }, false)
        | none => ({ st with ps := pr.1 }, false)
    else (st, false)

end StreamSpec

namespace StreamSpec

/-- Session feeding just the sentinel line, then the transport `end`. -/
def c8evs1 : List Ev := [Ev.data ("data: [DONE]\n".toList), Ev.endEv]

/-- Session feeding the sentinel line, then one more data line. -/
def c8evs2 : List Ev :=
  [Ev.data ("data: [DONE]\n".toList), Ev.data ("data: \x7b\"a\":1\x7d\n".toList)]

/-- Claim C8 fails on the code: the `[DONE]` branch resolves the promise
and calls `onComplete` but neither sets `isStopped` nor destroys the
stream, so (a) when the transport `end` event fires afterwards its
handler calls `onComplete` unconditionally a second time -- two terminal
signals for one session -- and (b) a data chunk arriving after `[DONE]`
is still processed into a Record (`totalDataReceived` rises to 1 and the
record sits in `batchBuffer`). -/
theorem c8_duplicate_complete :
    (runEvents jsonParse envOk cfgI c8evs1 initSess).completed = 2 ∧
    (2 : Nat) ≠ 1 ∧
    (runEvents jsonParse envOk cfgI c8evs1 initSess).resolved = true ∧
    (runEvents jsonParse envOk cfgI c8evs2 initSess).completed = 1 ∧
    (runEvents jsonParse envOk cfgI c8evs2 initSess).proc.totalDataReceived = 1 ∧
    (runEvents jsonParse envOk cfgI c8evs2 initSess).proc.batchBuffer.length = 1 := by
  exact ⟨rfl, by decide, rfl, rfl, rfl, rfl⟩

/-- Claim C10: a complete line whose trimmed text does not start with
`'data: '` is discarded whole by both variants -- no buffer append, no
Record, no state change -- even when the line is a bare JSON value. -/
theorem c10_non_data_discarded (pd : List Char → Option Json)
    (env : Env) (cfg : Cfg) (line : List Char)
    (hpf : startsWithL dataPfx (trimL line) = false) :
    (∀ st : SessState, st.proc.isStopped = false →
        handleLine pd env cfg line st = (st, false)) ∧
    (∀ st : SessO, st.stopped = false →
        handleLineO pd line st = (st, false)) := by
  constructor
  · intro st hst
    unfold handleLine
    rw [if_neg (by simp [hst])]
    dsimp only
    by_cases ht : trimL line = []
    · rw [if_pos ht]
    · rw [if_neg ht, if_neg (by simp [hpf])]
  · intro st hst
    unfold handleLineO
    rw [if_neg (by simp [hst])]
    dsimp only
    by_cases ht : trimL line = []
    · rw [if_pos ht]
    · rw [if_neg ht, if_neg (by simp [hpf])]

/-- Witness: the bare JSON line `\x7b"a":1\x7d` (no SSE framing) is
dropped by both variants from their initial states. -/
theorem c10_non_data_witness :
    startsWithL dataPfx (trimL ("\x7b\"a\":1\x7d".toList)) = false ∧
    handleLine jsonParse envOk cfgI ("\x7b\"a\":1\x7d".toList) initSess
      = (initSess, false) ∧
    handleLineO jsonParse ("\x7b\"a\":1\x7d".toList) initSessO
      = (initSessO, false) :=
  ⟨rfl,
   (c10_non_data_discarded jsonParse envOk cfgI ("\x7b\"a\":1\x7d".toList)
      rfl).1 initSess rfl,
   (c10_non_data_discarded jsonParse envOk cfgI ("\x7b\"a\":1\x7d".toList)
      rfl).2 initSessO rfl⟩

end StreamSpec
